import Mathlib

/-!
Verification of the conversation-tree and generation-orchestration engine of
the canchat-v2 repository.

The repository ships the engine's black-box tests (Playwright end-to-end
suites, a k6 load test) but not the engine implementation itself; the data
model below (`id`, `parentId`, `childrenIds`, `role`, `content`, `modelId`,
`models`, timestamps) is the one the k6 load test `src/test/k6-loadtest-C4.js`
constructs literally when it builds `myChatObj.history.messages`, and the
operations are modelled from the specification of the engine (§3 data model,
§4 component design), against which the test-observable behaviours are
checked.
-/

namespace Canchat

/-- Modelled from the spec: `role` is one of {user, assistant} (§3 Message). -/
inductive Role where
  | user
  | assistant
deriving DecidableEq, Repr

/-- Modelled from the spec: `status` is one of
{pending, streaming, complete, stopped, failed} (§3 Message). -/
inductive Status where
  | pending
  | streaming
  | complete
  | stopped
  | failed
deriving DecidableEq, Repr

/-- Modelled from the spec (§3 Message), matching the record the k6 load test
builds (`id`, `parentId`, `childrenIds`, `role`, `content`, timestamp): a
message node of the conversation tree.  Ids are opaque; we use `Nat`. -/
structure Message where
  id : Nat
  role : Role
  content : String
  parentId : Option Nat
  childrenIds : List Nat
  modelId : Option Nat
  status : Status
  createdAt : Nat
deriving DecidableEq, Repr

/-- Modelled from the spec (§3 Conversation): the message map (represented as
a list of messages with unique ids), the open branch tips, the selected model
ids, plus the fresh-id counter that stands for the opaque unique-id supply. -/
structure Conversation where
  messages : List Message
  activeLeafIds : List Nat
  selectedModelIds : List Nat
  nextId : Nat
deriving DecidableEq, Repr

namespace Conversation

/-- Lookup in the id → Message mapping. -/
def find? (c : Conversation) (i : Nat) : Option Message :=
  c.messages.find? (fun m => m.id == i)

/-- The ids present in the message map. -/
def ids (c : Conversation) : List Nat :=
  c.messages.map Message.id

/-- Total number of occurrences of `j` across all `childrenIds` lists. -/
def childOccurrences (c : Conversation) (j : Nat) : Nat :=
  (c.messages.map (fun m => m.childrenIds.count j)).sum

/-- The fresh node `appendChild` creates: a new id from the counter, empty
`childrenIds`, `createdAt` from the logical counter (§3). -/
def newMsg (c : Conversation) (pid : Option Nat) (role : Role)
    (content : String) (modelId : Option Nat) (status : Status) : Message :=
  { id := c.nextId, role := role, content := content, parentId := pid,
    childrenIds := [], modelId := modelId, status := status,
    createdAt := c.nextId }

/-- Register the fresh id at the end of the parent's `childrenIds`
(insertion order = creation order, §3). -/
def bump (c : Conversation) (p : Nat) (m : Message) : Message :=
  if m.id == p then { m with childrenIds := m.childrenIds ++ [c.nextId] } else m

/-- The message list after the parent (if any) has been bumped. -/
def bumpAll (c : Conversation) (pid : Option Nat) : List Message :=
  match pid with
  | none => c.messages
  | some p => c.messages.map (c.bump p)

/-- Modelled from the spec (§4.1 Message Store `appendChild`): creates a fresh
node under `pid` (or as a root when `pid = none`), appending the new id to the
parent's `childrenIds`; fails with `NotFound` (here `none`) if `pid` names an
absent message. -/
def appendChild (c : Conversation) (pid : Option Nat) (role : Role)
    (content : String) (modelId : Option Nat) (status : Status) :
    Option (Conversation × Nat) :=
  match pid with
  | none =>
      some ({ c with
        messages := c.bumpAll none ++ [c.newMsg none role content modelId status],
        nextId := c.nextId + 1 }, c.nextId)
  | some p =>
      if (c.find? p).isSome then
        some ({ c with
          messages :=
            c.bumpAll (some p) ++ [c.newMsg (some p) role content modelId status],
          nextId := c.nextId + 1 }, c.nextId)
      else none

/-- Rewrite the one node with id `i` through `f`, leaving the rest alone. -/
def mapMsg (c : Conversation) (i : Nat) (f : Message → Message) : Conversation :=
  { c with messages := c.messages.map (fun m => if m.id == i then f m else m) }

/-- Modelled from the spec (§4.1 `updateContent`): appends `delta` to
`content`; fails with `InvalidState` (here `none`) unless the node is
`streaming`. -/
def updateContent (c : Conversation) (i : Nat) (delta : String) :
    Option Conversation :=
  match c.find? i with
  | some m =>
      if m.status == .streaming then
        some (c.mapMsg i (fun m' => { m' with content := m'.content ++ delta }))
      else none
  | none => none

/-- Modelled from the spec (§4.1 `replaceContent`): used for edits, requires
`status == complete` or `role == user`. -/
def replaceContent (c : Conversation) (i : Nat) (text : String) :
    Option Conversation :=
  match c.find? i with
  | some m =>
      if m.status == .complete || m.role == .user then
        some (c.mapMsg i (fun m' => { m' with content := text }))
      else none
  | none => none

/-- Modelled from the spec (§3 invariant 5, §4.1 `setStatus`): the monotonic
status-transition table pending → streaming → {complete, stopped, failed}. -/
def allowedTransition : Status → Status → Bool
  | .pending, .streaming => true
  | .streaming, .complete => true
  | .streaming, .stopped => true
  | .streaming, .failed => true
  | _, _ => false

/-- Modelled from the spec (§4.1 `setStatus`): enforces the monotonic
transition table, fails with `InvalidTransition` (here `none`) otherwise. -/
def setStatus (c : Conversation) (i : Nat) (s : Status) : Option Conversation :=
  match c.find? i with
  | some m =>
      if allowedTransition m.status s then
        some (c.mapMsg i (fun m' => { m' with status := s }))
      else none
  | none => none

/-- Modelled from the spec (§4.3 `cancel`): signals the stream and records
`Stopped`; idempotent — cancelling a task that is not running is a no-op, not
an error. -/
def cancel (c : Conversation) (i : Nat) : Conversation :=
  match c.find? i with
  | some m => if m.status == .streaming then (c.setStatus i .stopped).getD c else c
  | none => c

/-- One step of the fan-out: create the next model's assistant child under
the user message and record its id. -/
def turnStep (uid : Nat) (acc : Conversation × List Nat) (mid : Nat) :
    Conversation × List Nat :=
  match acc.1.appendChild (some uid) .assistant "" (some mid) .pending with
  | some (c2, j) => (c2, acc.2 ++ [j])
  | none => acc

/-- Modelled from the spec (§4.4 Fan-out Orchestrator `startTurn`): for each
model id, in order, creates an assistant child with `status = Pending` under
the user message and hands it to a Generation Task; `activeLeafIds` becomes
the list of the newly created assistant ids. -/
def startTurn (c : Conversation) (uid : Nat) (modelIds : List Nat) :
    Conversation :=
  let r := modelIds.foldl (turnStep uid) (c, [])
  { r.1 with activeLeafIds := r.2 }

/-- Modelled from the spec (§4.4 `addModel`): appends one more assistant child
under the same user message and starts its task, without disturbing
already-running or completed siblings. -/
def addModel (c : Conversation) (uid : Nat) (mid : Nat) :
    Option Conversation :=
  (c.appendChild (some uid) .assistant "" (some mid) .pending).map
    (fun r => { r.1 with activeLeafIds := r.1.activeLeafIds ++ [r.2] })

/-- Modelled from the spec (§4.4 `removeModel`): cancels that model's task if
running and removes it from `activeLeafIds` tracking; the message node itself
remains in the tree for history. -/
def removeModel (c : Conversation) (uid : Nat) (mid : Nat) :
    Option Conversation :=
  match c.find? uid with
  | some um =>
      match um.childrenIds.find?
          (fun j => (c.find? j).any (fun mc => mc.modelId == some mid)) with
      | some j =>
          let c2 := c.cancel j
          some { c2 with activeLeafIds := c2.activeLeafIds.filter (fun x => x != j) }
      | none => none
  | none => none

/-- Modelled from the spec (§4.4 `regenerate`): reads the parent and the
originating `modelId` of the assistant message, creates a new sibling
assistant message under the same parent and starts a fresh Generation Task
for it; the old message is left untouched. -/
def regenerate (c : Conversation) (aid : Nat) : Option Conversation :=
  match c.find? aid with
  | some am =>
      match am.parentId, am.modelId with
      | some p, some mid =>
          (c.appendChild (some p) .assistant "" (some mid) .pending).map
            (fun r => { r.1 with activeLeafIds := [r.2] })
      | _, _ => none
  | none => none

/-- The current thread tip a new user message attaches under (§4.5
`sendMessage` appends "under the current active leaf's thread tip"). -/
def threadTip (c : Conversation) : Option Nat :=
  c.activeLeafIds.head?

/-- Modelled from the spec (§4.5 Conversation Controller `sendMessage`):
appends a user message under the current active leaf's thread tip, then calls
`Orchestrator.startTurn` with the currently selected models. -/
def sendMessage (c : Conversation) (text : String) : Option Conversation :=
  (c.appendChild c.threadTip .user text none .complete).map
    (fun r => r.1.startTurn r.2 c.selectedModelIds)

/-- Modelled from the spec (§4.5 `editUserMessage`): with `regen = false`,
`replaceContent` in place (siblings/children untouched, no new generation);
with `regen = true`, creates a new sibling user message under the same parent
carrying `newText` and calls `startTurn` for it with the selected models. -/
def editUserMessage (c : Conversation) (i : Nat) (newText : String)
    (regen : Bool) : Option Conversation :=
  match c.find? i with
  | some m =>
      if m.role == .user then
        if regen then
          (c.appendChild m.parentId .user newText none .complete).map
            (fun r => r.1.startTurn r.2 c.selectedModelIds)
        else c.replaceContent i newText
      else none
  | none => none

/-- Modelled from the spec (§4.5 `editAssistantMessage`): with
`asCopy = false`, replaces content in place; with `asCopy = true`, creates a
sibling assistant message under the same parent carrying `newText` with
`status = Complete` and no Generation Task (a manually authored version). -/
def editAssistantMessage (c : Conversation) (i : Nat) (newText : String)
    (asCopy : Bool) : Option Conversation :=
  match c.find? i with
  | some m =>
      if m.role == .assistant then
        if asCopy then
          (c.appendChild m.parentId .assistant newText m.modelId .complete).map
            Prod.fst
        else c.replaceContent i newText
      else none
  | none => none

/-- Modelled from the spec (§4.5 `continueResponse`, §4.3): requires
`status == Stopped`; resumes by transitioning the same node back to
`streaming`, with the accumulated content preserved. -/
def continueResponse (c : Conversation) (i : Nat) : Option Conversation :=
  match c.find? i with
  | some m =>
      if m.status == .stopped then
        some (c.mapMsg i (fun m' => { m' with status := .streaming }))
      else none
  | none => none

end Conversation

/-- Modelled from the spec (§4.3 Generation Task, §5): the events one model
stream can deliver to its message — the stream starts (pending → streaming),
a content chunk arrives, the stream ends (→ complete), or the transport/model
fails (→ failed).  Concurrent fan-out appears as arbitrary interleavings of
these per-message events. -/
inductive StreamEv where
  | start (i : Nat)
  | chunk (i : Nat) (delta : String)
  | finish (i : Nat)
  | fail (i : Nat)
deriving DecidableEq, Repr

namespace Conversation

/-- Apply one stream event; a rejected transition leaves the state unchanged
(the task owns its node, so a rejected event only means it was stale). -/
def applyStream (c : Conversation) : StreamEv → Conversation
  | .start i => (c.setStatus i .streaming).getD c
  | .chunk i d => (c.updateContent i d).getD c
  | .finish i => (c.setStatus i .complete).getD c
  | .fail i => (c.setStatus i .failed).getD c

end Conversation

/-- Modelled from the spec (§4.5, §6 Controller surface): the intents a caller
can issue against one conversation, plus the stream events the Generation
Tasks feed back. -/
inductive Op where
  | send (text : String)
  | editUser (i : Nat) (text : String) (regen : Bool)
  | editAssistant (i : Nat) (text : String) (asCopy : Bool)
  | regen (i : Nat)
  | cont (i : Nat)
  | addModel (uid : Nat) (mid : Nat)
  | removeModel (uid : Nat) (mid : Nat)
  | stopOne (i : Nat)
  | stream (e : StreamEv)
deriving DecidableEq, Repr

namespace Conversation

/-- Run one intent; a rejected intent (a synchronously surfaced `NotFound` /
`InvalidState`, §7) leaves the conversation unchanged. -/
def applyOp (c : Conversation) : Op → Conversation
  | .send t => (c.sendMessage t).getD c
  | .editUser i t r => (c.editUserMessage i t r).getD c
  | .editAssistant i t a => (c.editAssistantMessage i t a).getD c
  | .regen i => (c.regenerate i).getD c
  | .cont i => (c.continueResponse i).getD c
  | .addModel u m => (c.addModel u m).getD c
  | .removeModel u m => (c.removeModel u m).getD c
  | .stopOne i => c.cancel i
  | .stream e => c.applyStream e

/-- Run a sequence of intents. -/
def applyOps (c : Conversation) (ops : List Op) : Conversation :=
  ops.foldl applyOp c

/-- The status of a message, observed from outside. -/
def statusOf (c : Conversation) (i : Nat) : Option Status :=
  (c.find? i).map Message.status

/-- The content of a message, observed from outside. -/
def contentOf (c : Conversation) (i : Nat) : Option String :=
  (c.find? i).map Message.content

/-- The role of a message, observed from outside. -/
def roleOf (c : Conversation) (i : Nat) : Option Role :=
  (c.find? i).map Message.role

/-- The model id of a message, observed from outside. -/
def modelOf (c : Conversation) (i : Nat) : Option (Option Nat) :=
  (c.find? i).map Message.modelId

/-- The `childrenIds` of a message, observed from outside. -/
def childrenOf (c : Conversation) (i : Nat) : Option (List Nat) :=
  (c.find? i).map Message.childrenIds

/-- The number of assistant children of a message — the turn's
assistant-message count the add/remove-model test observes. -/
def assistantChildCount (c : Conversation) (i : Nat) : Nat :=
  ((c.childrenOf i).getD []).countP (fun j => c.roleOf j == some Role.assistant)

/-- The conversation roots, in message order. -/
def rootIds (c : Conversation) : List Nat :=
  (c.messages.filter (fun m => m.parentId.isNone)).map Message.id

/-- Modelled from the spec (§4.2 Version Navigator `siblingsOf`): the parent's
`childrenIds` if `id` has a parent, else the set of conversation roots. -/
def siblingsOf (c : Conversation) (i : Nat) : List Nat :=
  match c.find? i with
  | none => []
  | some m =>
      match m.parentId with
      | some p =>
          match c.find? p with
          | some pm => pm.childrenIds
          | none => []
      | none => c.rootIds

/-- The element immediately before `i` in an ordered id list (none at the
front). -/
def prevIn : List Nat → Nat → Option Nat
  | [], _ => none
  | [_], _ => none
  | a :: b :: rest, i => if b = i then some a else prevIn (b :: rest) i

/-- The element immediately after `i` in an ordered id list (none at the
end). -/
def nextIn : List Nat → Nat → Option Nat
  | [], _ => none
  | [_], _ => none
  | a :: b :: rest, i => if a = i then some b else nextIn (b :: rest) i

/-- Modelled from the spec (§4.2 `previous`): the sibling immediately before
`id` in the sibling ordering; fails with `NoSuchVersion` (here `none`) at the
front. -/
def previous (c : Conversation) (i : Nat) : Option Nat :=
  prevIn (c.siblingsOf i) i

/-- Modelled from the spec (§4.2 `next`): the sibling immediately after `id`
in the sibling ordering; fails with `NoSuchVersion` (here `none`) at the
end. -/
def next (c : Conversation) (i : Nat) : Option Nat :=
  nextIn (c.siblingsOf i) i

/-- Iterate a navigation step `n` times from `i`, failing if any step
fails. -/
def iterNav (f : Nat → Option Nat) : Nat → Nat → Option Nat
  | 0, i => some i
  | n + 1, i => (f i).bind (iterNav f n)

end Conversation

/-- The empty conversation. -/
def Conversation.empty : Conversation :=
  { messages := [], activeLeafIds := [], selectedModelIds := [], nextId := 0 }

/-- The concatenation of the content chunks one stream delivers. -/
def concatChunks : List String → String
  | [] => ""
  | d :: rest => d ++ concatChunks rest

/-- Restriction of the intent language to the three tree-building calls the
tree-integrity property quantifies over (§8.1). -/
def Op.treeBuilding : Op → Bool
  | .send _ => true
  | .regen _ => true
  | .editUser _ _ rb => rb
  | _ => false

namespace Conversation

variable {c c' : Conversation} {m pm mc : Message} {i j p q : Nat}

/-- Occurrences of `j` across the `childrenIds` of a message list. -/
def occIn (L : List Message) (j : Nat) : Nat :=
  (L.map (fun m => m.childrenIds.count j)).sum

/-- Well-formedness of the conversation state: ids are below the fresh-id
counter and unique, `childrenIds` entries are below the counter, point to
present messages, and are duplicate-free, parent pointers point to present
messages, a `childrenIds` entry's message records that parent, roots occur in
no `childrenIds`, and every non-root id occurs in exactly one parent's
`childrenIds` (spec §3 invariants 1–2). -/
def WF (c : Conversation) : Prop :=
  (∀ m ∈ c.messages, m.id < c.nextId) ∧
  c.ids.Nodup ∧
  (∀ m ∈ c.messages, ∀ j ∈ m.childrenIds, j < c.nextId) ∧
  (∀ m ∈ c.messages, ∀ j ∈ m.childrenIds, j ∈ c.ids) ∧
  (∀ m ∈ c.messages, m.childrenIds.Nodup) ∧
  (∀ m ∈ c.messages, ∀ p, m.parentId = some p → p ∈ c.ids) ∧
  (∀ m ∈ c.messages, ∀ j ∈ m.childrenIds, ∀ mc ∈ c.messages, mc.id = j →
    mc.parentId = some m.id) ∧
  (∀ m ∈ c.messages, m.parentId = none → c.childOccurrences m.id = 0) ∧
  (∀ m ∈ c.messages, ∀ p, m.parentId = some p → c.childOccurrences m.id = 1)

/-- The forest shape claimed for the message map: every non-root message's id
appears in exactly one parent's `childrenIds`, no id occurs twice in any
`childrenIds`, and `childrenIds` never references an absent id (§8.1). -/
def Forest (c : Conversation) : Prop :=
  (∀ m ∈ c.messages, ∀ p, m.parentId = some p → c.childOccurrences m.id = 1) ∧
  (∀ m ∈ c.messages, m.childrenIds.Nodup) ∧
  (∀ m ∈ c.messages, ∀ j ∈ m.childrenIds, j ∈ c.ids)

/-- A per-node rewrite that leaves the id in place. -/
def IdPres (f : Message → Message) : Prop :=
  ∀ m, (f m).id = m.id

/-- A per-node rewrite that leaves the tree structure (id, parent pointer,
children, role, model) in place — the shape of all content/status mutations
(§3 lifecycle: a node is mutated only in `content`/`status`). -/
def StructPres (f : Message → Message) : Prop :=
  ∀ m, (f m).id = m.id ∧ (f m).parentId = m.parentId ∧
    (f m).childrenIds = m.childrenIds ∧ (f m).role = m.role ∧
    (f m).modelId = m.modelId

/-- Executable well-formedness check, used to certify concrete states. -/
def wfCheck (c : Conversation) : Bool :=
  c.messages.all (fun m =>
    decide (m.id < c.nextId) &&
    m.childrenIds.all (fun j2 => decide (j2 < c.nextId) && decide (j2 ∈ c.ids)) &&
    decide m.childrenIds.Nodup &&
    (match m.parentId with
     | none => decide (c.childOccurrences m.id = 0)
     | some p2 => decide (p2 ∈ c.ids) && decide (c.childOccurrences m.id = 1)) &&
    m.childrenIds.all (fun j2 => c.messages.all (fun mc =>
      !(mc.id == j2) || decide (mc.parentId = some m.id)))) &&
  decide c.ids.Nodup

/-- The claimed role/model invariant (§3): only assistant messages carry a
model id — for every message with role user, `modelId` is null. -/
def RoleInv (c : Conversation) : Prop :=
  ∀ m ∈ c.messages, m.role = .user → m.modelId = none

theorem Forest_of_WF (h : WF c) : Forest c := by
  obtain ⟨-, -, -, h4, h5, -, -, -, h9⟩ := h
  exact ⟨h9, h5, h4⟩

theorem WF_empty : WF Conversation.empty := by
  refine ⟨?_, ?_, ?_, ?_, ?_, ?_, ?_, ?_, ?_⟩ <;> simp [Conversation.empty, ids]

theorem id_of_find? (h : c.find? i = some m) : m.id = i := by
  have := List.find?_some h
  simpa using this

theorem mem_of_find? (h : c.find? i = some m) : m ∈ c.messages :=
  List.mem_of_find?_eq_some h

theorem find?_isSome_iff : (c.find? i).isSome ↔ i ∈ c.ids := by
  rw [find?, List.find?_isSome, ids]
  constructor
  · rintro ⟨m, hm, hid⟩
    exact List.mem_map.2 ⟨m, hm, by simpa using hid⟩
  · rintro h
    obtain ⟨m, hm, hid⟩ := List.mem_map.1 h
    exact ⟨m, hm, by simpa using hid⟩

theorem find?_id_of_mem_list {m : Message} :
    ∀ (t : List Message), (t.map Message.id).Nodup → m ∈ t →
      t.find? (fun x => x.id == m.id) = some m := by
  intro t
  induction t with
  | nil => intro _ hm; cases hm
  | cons a t ih =>
      intro hn hm
      rw [List.map_cons, List.nodup_cons] at hn
      rcases List.mem_cons.1 hm with h | h
      · subst h
        simp
      · have hne : ¬(a.id == m.id) = true := by
          intro he
          have he' : a.id = m.id := by simpa using he
          exact hn.1 (he' ▸ List.mem_map.2 ⟨m, h, rfl⟩)
        rw [List.find?_cons_of_neg t hne]
        exact ih hn.2 h

theorem find?_of_mem (hn : c.ids.Nodup) (hm : m ∈ c.messages) :
    c.find? m.id = some m :=
  find?_id_of_mem_list c.messages hn hm


theorem StructPres.idPres {f : Message → Message} (h : StructPres f) :
    IdPres f :=
  fun m => (h m).1

theorem mapMsg_find? {f : Message → Message} (hf : IdPres f) :
    (c.mapMsg i f).find? j =
      (c.find? j).map (fun m => if m.id == i then f m else m) := by
  show (c.messages.map _).find? _ = _
  rw [List.find?_map]
  have hp : ((fun m : Message => m.id == j) ∘
      (fun m => if m.id == i then f m else m)) = (fun m : Message => m.id == j) := by
    funext m
    by_cases h : m.id == i
    · simp [Function.comp, h, hf m]
    · simp [Function.comp, h]
  rw [hp]
  rfl

theorem mapMsg_find?_self {f : Message → Message} (hf : IdPres f) :
    (c.mapMsg i f).find? i = (c.find? i).map f := by
  rw [mapMsg_find? hf]
  cases h : c.find? i with
  | none => rfl
  | some m =>
      have := id_of_find? h
      simp [this]

theorem mapMsg_find?_other {f : Message → Message} (hf : IdPres f)
    (hij : j ≠ i) : (c.mapMsg i f).find? j = c.find? j := by
  rw [mapMsg_find? hf]
  cases h : c.find? j with
  | none => rfl
  | some m =>
      have hid := id_of_find? h
      have hne : m.id ≠ i := by rw [hid]; exact hij
      simp [hne]

theorem mapMsg_ids {f : Message → Message} (hf : IdPres f) :
    (c.mapMsg i f).ids = c.ids := by
  show (c.messages.map _).map Message.id = c.messages.map Message.id
  rw [List.map_map]
  apply List.map_congr_left
  intro m _
  by_cases h : m.id == i
  · simp [Function.comp, h, hf m]
  · simp [Function.comp, h]

theorem mapMsg_nextId {f : Message → Message} :
    (c.mapMsg i f).nextId = c.nextId := rfl

theorem mapMsg_activeLeafIds {f : Message → Message} :
    (c.mapMsg i f).activeLeafIds = c.activeLeafIds := rfl

theorem mapMsg_selectedModelIds {f : Message → Message} :
    (c.mapMsg i f).selectedModelIds = c.selectedModelIds := rfl

theorem childOccurrences_mapMsg {f : Message → Message} (hf : StructPres f) :
    (c.mapMsg i f).childOccurrences q = c.childOccurrences q := by
  show ((c.messages.map _).map _).sum = _
  rw [List.map_map]
  congr 1
  apply List.map_congr_left
  intro m _
  by_cases h : m.id == i
  · simp [Function.comp, h, (hf m).2.2.1]
  · simp [Function.comp, h]

theorem WF_mapMsg {f : Message → Message} (hf : StructPres f) (h : WF c) :
    WF (c.mapMsg i f) := by
  obtain ⟨h1, h2, h3, h4, h5, h6, h7, h8, h9⟩ := h
  have hg : ∀ m : Message,
      (if m.id == i then f m else m).id = m.id ∧
      (if m.id == i then f m else m).parentId = m.parentId ∧
      (if m.id == i then f m else m).childrenIds = m.childrenIds := by
    intro m
    by_cases h : m.id == i
    · simp only [h, if_pos]
      exact ⟨(hf m).1, (hf m).2.1, (hf m).2.2.1⟩
    · simp [h]
  have hmsgs : (c.mapMsg i f).messages =
      c.messages.map (fun m => if m.id == i then f m else m) := rfl
  refine ⟨?_, ?_, ?_, ?_, ?_, ?_, ?_, ?_, ?_⟩
  · intro m' hm'
    rw [hmsgs] at hm'
    obtain ⟨m, hm, rfl⟩ := List.mem_map.1 hm'
    rw [(hg m).1, mapMsg_nextId]
    exact h1 m hm
  · rw [mapMsg_ids hf.idPres]; exact h2
  · intro m' hm' j hj
    rw [hmsgs] at hm'
    obtain ⟨m, hm, rfl⟩ := List.mem_map.1 hm'
    rw [(hg m).2.2] at hj
    rw [mapMsg_nextId]
    exact h3 m hm j hj
  · intro m' hm' j hj
    rw [hmsgs] at hm'
    obtain ⟨m, hm, rfl⟩ := List.mem_map.1 hm'
    rw [(hg m).2.2] at hj
    rw [mapMsg_ids hf.idPres]
    exact h4 m hm j hj
  · intro m' hm'
    rw [hmsgs] at hm'
    obtain ⟨m, hm, rfl⟩ := List.mem_map.1 hm'
    rw [(hg m).2.2]
    exact h5 m hm
  · intro m' hm' p hp
    rw [hmsgs] at hm'
    obtain ⟨m, hm, rfl⟩ := List.mem_map.1 hm'
    rw [(hg m).2.1] at hp
    rw [mapMsg_ids hf.idPres]
    exact h6 m hm p hp
  · intro m' hm' j hj mc' hmc' hid
    rw [hmsgs] at hm'
    obtain ⟨m, hm, rfl⟩ := List.mem_map.1 hm'
    rw [hmsgs] at hmc'
    obtain ⟨mc, hmc, rfl⟩ := List.mem_map.1 hmc'
    rw [(hg m).2.2] at hj
    rw [(hg mc).1] at hid
    rw [(hg mc).2.1, (hg m).1]
    exact h7 m hm j hj mc hmc hid
  · intro m' hm' hp
    rw [hmsgs] at hm'
    obtain ⟨m, hm, rfl⟩ := List.mem_map.1 hm'
    rw [(hg m).2.1] at hp
    rw [(hg m).1, childOccurrences_mapMsg hf]
    exact h8 m hm hp
  · intro m' hm' p hp
    rw [hmsgs] at hm'
    obtain ⟨m, hm, rfl⟩ := List.mem_map.1 hm'
    rw [(hg m).2.1] at hp
    rw [(hg m).1, childOccurrences_mapMsg hf]
    exact h9 m hm p hp

theorem bump_id : (c.bump p m).id = m.id := by
  rw [bump]; split <;> rfl

theorem bump_parentId : (c.bump p m).parentId = m.parentId := by
  rw [bump]; split <;> rfl

theorem bump_role : (c.bump p m).role = m.role := by
  rw [bump]; split <;> rfl

theorem bump_modelId : (c.bump p m).modelId = m.modelId := by
  rw [bump]; split <;> rfl

theorem bump_status : (c.bump p m).status = m.status := by
  rw [bump]; split <;> rfl

theorem bump_content : (c.bump p m).content = m.content := by
  rw [bump]; split <;> rfl

theorem bump_childrenIds : (c.bump p m).childrenIds =
    if m.id == p then m.childrenIds ++ [c.nextId] else m.childrenIds := by
  rw [bump]; split <;> simp_all

theorem bumpAll_ids {pid : Option Nat} : (c.bumpAll pid).map Message.id = c.ids := by
  cases pid with
  | none => rfl
  | some p =>
      show (c.messages.map _).map Message.id = _
      rw [List.map_map]
      apply List.map_congr_left
      intro m _
      simp [Function.comp, bump_id]

theorem bumpAll_id_lt {pid : Option Nat}
    (hb : ∀ m ∈ c.messages, m.id < c.nextId) :
    ∀ x ∈ c.bumpAll pid, x.id < c.nextId := by
  cases pid with
  | none => exact hb
  | some p =>
      intro x hx
      obtain ⟨m, hm, rfl⟩ := List.mem_map.1 hx
      rw [bump_id]
      exact hb m hm

theorem appendChild_dest {r : Role} {t : String} {mo : Option Nat} {s : Status}
    {pid : Option Nat}
    (h : c.appendChild pid r t mo s = some (c', j)) :
    j = c.nextId ∧
      c' = { c with
               messages := c.bumpAll pid ++ [c.newMsg pid r t mo s]
               nextId := c.nextId + 1 } := by
  cases pid with
  | none =>
      simp only [appendChild, Option.some.injEq, Prod.mk.injEq] at h
      exact ⟨h.2.symm, h.1.symm⟩
  | some p =>
      rw [appendChild] at h
      split at h
      · simp only [Option.some.injEq, Prod.mk.injEq] at h
        exact ⟨h.2.symm, h.1.symm⟩
      · cases h

theorem appendChild_isSome_of_parent {r : Role} {t : String} {mo : Option Nat}
    {s : Status} (hp : (c.find? p).isSome) :
    c.appendChild (some p) r t mo s =
      some ({ c with
                messages := c.bumpAll (some p) ++ [c.newMsg (some p) r t mo s]
                nextId := c.nextId + 1 }, c.nextId) := by
  rw [appendChild]
  simp [hp]

theorem appendChild_root {r : Role} {t : String} {mo : Option Nat} {s : Status} :
    c.appendChild none r t mo s =
      some ({ c with
                messages := c.bumpAll none ++ [c.newMsg none r t mo s]
                nextId := c.nextId + 1 }, c.nextId) := rfl

theorem find?_bumpAll_ne_new {pid : Option Nat}
    (hq2 : pid ≠ some q) :
    (c.bumpAll pid).find? (fun m => m.id == q) =
      c.messages.find? (fun m => m.id == q) := by
  cases pid with
  | none => rfl
  | some p =>
      have hpq : p ≠ q := fun he => hq2 (he ▸ rfl)
      show (c.messages.map _).find? _ = _
      rw [List.find?_map]
      have hcomp : ((fun m : Message => m.id == q) ∘ c.bump p) =
          (fun m : Message => m.id == q) := by
        funext m
        simp [Function.comp, bump_id]
      rw [hcomp]
      cases h : c.messages.find? (fun m => m.id == q) with
      | none => rfl
      | some m0 =>
          have hid : m0.id = q := by simpa using List.find?_some h
          have : c.bump p m0 = m0 := by
            rw [bump, if_neg]
            simp [hid]
            exact fun he => hpq he.symm
          simp [this]

theorem appendChild_find?_new {r : Role} {t : String} {mo : Option Nat}
    {s : Status} {pid : Option Nat}
    (hb : ∀ m ∈ c.messages, m.id < c.nextId)
    (hmsgs : c'.messages = c.bumpAll pid ++ [c.newMsg pid r t mo s]) :
    c'.find? c.nextId = some (c.newMsg pid r t mo s) := by
  rw [find?, hmsgs, List.find?_append]
  have hleft : (c.bumpAll pid).find? (fun m => m.id == c.nextId) = none := by
    rw [List.find?_eq_none]
    intro x hx
    have := bumpAll_id_lt hb x hx
    simp
    omega
  rw [hleft]
  simp [newMsg]

theorem appendChild_find?_old {r : Role} {t : String} {mo : Option Nat}
    {s : Status} {pid : Option Nat}
    (hmsgs : c'.messages = c.bumpAll pid ++ [c.newMsg pid r t mo s])
    (hq1 : q ≠ c.nextId) (hq2 : pid ≠ some q) :
    c'.find? q = c.find? q := by
  rw [find?, hmsgs, List.find?_append]
  have hright : [c.newMsg pid r t mo s].find? (fun m => m.id == q) = none := by
    simp [newMsg]
    omega
  rw [hright, find?_bumpAll_ne_new hq2, Option.or_none]
  rfl

theorem appendChild_find?_parent {r : Role} {t : String} {mo : Option Nat}
    {s : Status}
    (hmsgs : c'.messages = c.bumpAll (some p) ++ [c.newMsg (some p) r t mo s])
    (hp : c.find? p = some pm) :
    c'.find? p = some { pm with childrenIds := pm.childrenIds ++ [c.nextId] } := by
  rw [find?, hmsgs, List.find?_append]
  have hleft : (c.bumpAll (some p)).find? (fun m => m.id == p) =
      some { pm with childrenIds := pm.childrenIds ++ [c.nextId] } := by
    show (c.messages.map _).find? _ = _
    rw [List.find?_map]
    have hcomp : ((fun m : Message => m.id == p) ∘ c.bump p) =
        (fun m : Message => m.id == p) := by
      funext m
      simp [Function.comp, bump_id]
    rw [hcomp, find?] at *
    rw [hp]
    have hid : pm.id = p := id_of_find? hp
    simp [bump, hid]
  rw [hleft]
  rfl

theorem appendChild_find?_proj {α : Type} {g : Message → α} {r : Role}
    {t : String} {mo : Option Nat} {s : Status}
    (hmsgs : c'.messages = c.bumpAll (some p) ++ [c.newMsg (some p) r t mo s])
    (hg : ∀ m, g (c.bump p m) = g m) (hq : q ≠ c.nextId) :
    (c'.find? q).map g = (c.find? q).map g := by
  rw [find?, hmsgs, List.find?_append]
  have hright : [c.newMsg (some p) r t mo s].find? (fun m => m.id == q) =
      none := by
    simp [newMsg]
    omega
  rw [hright, Option.or_none]
  show ((c.messages.map (c.bump p)).find? _).map g = _
  rw [List.find?_map]
  have hcomp : ((fun m : Message => m.id == q) ∘ c.bump p) =
      (fun m : Message => m.id == q) := by
    funext m
    simp [Function.comp, bump_id]
  rw [hcomp]
  rw [show c.find? q = c.messages.find? (fun m => m.id == q) from rfl]
  cases h : c.messages.find? (fun m => m.id == q) with
  | none => rfl
  | some m0 => simp [hg]

theorem childOccurrences_eq_occIn : c.childOccurrences q = occIn c.messages q := rfl

theorem occIn_append {L1 L2 : List Message} :
    occIn (L1 ++ L2) q = occIn L1 q + occIn L2 q := by
  simp [occIn]

theorem occIn_eq_zero {L : List Message} (h : ∀ m ∈ L, q ∉ m.childrenIds) :
    occIn L q = 0 := by
  apply List.sum_eq_zero
  intro x hx
  obtain ⟨m, hm, rfl⟩ := List.mem_map.1 hx
  exact List.count_eq_zero.2 (h m hm)

theorem sum_map_ite_one {L : List Message} {pb : Message → Bool} :
    (L.map (fun m => if pb m then 1 else 0)).sum = L.countP pb := by
  induction L with
  | nil => rfl
  | cons a t ih =>
      rw [List.map_cons, List.sum_cons, List.countP_cons, ih]
      by_cases h : pb a
      · simp only [h, if_pos]
        omega
      · simp [h]

theorem countP_id_eq_one (hn : c.ids.Nodup) (hp : p ∈ c.ids) :
    c.messages.countP (fun m => m.id == p) = 1 := by
  have h1 : c.messages.countP (fun m => m.id == p) = c.ids.count p := by
    rw [ids, List.count, List.countP_map]
    rfl
  rw [h1]
  exact List.count_eq_one_of_mem hn hp

theorem occIn_bumpAll_ne {pid : Option Nat} (hq : q ≠ c.nextId) :
    occIn (c.bumpAll pid) q = c.childOccurrences q := by
  cases pid with
  | none => rfl
  | some p =>
      rw [childOccurrences_eq_occIn]
      show ((c.messages.map _).map _).sum = _
      rw [List.map_map]
      congr 1
      apply List.map_congr_left
      intro m _
      rw [Function.comp, bump_childrenIds]
      by_cases h : m.id == p
      · rw [if_pos h, List.count_append, List.count_singleton]
        have : ¬(c.nextId == q) = true := by simpa using fun he => hq he.symm
        simp [this]
      · rw [if_neg h]

theorem occIn_bumpAll_new (hn : c.ids.Nodup) (hp : p ∈ c.ids)
    (hcb : ∀ m ∈ c.messages, ∀ j ∈ m.childrenIds, j < c.nextId) :
    occIn (c.bumpAll (some p)) c.nextId = 1 := by
  show ((c.messages.map _).map _).sum = 1
  rw [List.map_map]
  have hpt : (c.messages.map ((fun m => m.childrenIds.count c.nextId) ∘ c.bump p)) =
      (c.messages.map (fun m => if m.id == p then 1 else 0)) := by
    apply List.map_congr_left
    intro m hm
    rw [Function.comp, bump_childrenIds]
    have hz : m.childrenIds.count c.nextId = 0 := by
      apply List.count_eq_zero.2
      intro hmem
      exact absurd (hcb m hm _ hmem) (by omega)
    by_cases h : m.id == p
    · rw [if_pos h, if_pos h, List.count_append, hz, List.count_singleton]
      simp
    · rw [if_neg h, if_neg h, hz]
  rw [hpt, sum_map_ite_one]
  exact countP_id_eq_one hn hp

theorem occIn_newMsg {r : Role} {t : String} {mo : Option Nat} {s : Status}
    {pid : Option Nat} : occIn [c.newMsg pid r t mo s] q = 0 := by
  simp [occIn, newMsg]

theorem appendChild_parent_mem {r : Role} {t : String} {mo : Option Nat}
    {s : Status} (h : c.appendChild (some p) r t mo s = some (c', j)) :
    p ∈ c.ids := by
  rw [appendChild] at h
  split at h
  · next hcond => exact find?_isSome_iff.1 hcond
  · cases h

theorem mem_bumpAll {x : Message} {pid : Option Nat} (hx : x ∈ c.bumpAll pid) :
    ∃ m ∈ c.messages, x = m ∨ ∃ p, pid = some p ∧ x = c.bump p m := by
  cases pid with
  | none => exact ⟨x, hx, Or.inl rfl⟩
  | some p =>
      obtain ⟨m, hm, rfl⟩ := List.mem_map.1 hx
      exact ⟨m, hm, Or.inr ⟨p, rfl, rfl⟩⟩

theorem WF_appendChild {r : Role} {t : String} {mo : Option Nat} {s : Status}
    {pid : Option Nat} (hw : WF c)
    (h : c.appendChild pid r t mo s = some (c', j)) : WF c' := by
  have hpm : ∀ p0, pid = some p0 → p0 ∈ c.ids := by
    intro p0 hp0
    subst hp0
    exact appendChild_parent_mem h
  obtain ⟨hj, hc'⟩ := appendChild_dest h
  subst hj
  subst hc'
  obtain ⟨h1, h2, h3, h4, h5, h6, h7, h8, h9⟩ := hw
  have hids : ({ c with
      messages := c.bumpAll pid ++ [c.newMsg pid r t mo s]
      nextId := c.nextId + 1 } : Conversation).ids = c.ids ++ [c.nextId] := by
    show (c.bumpAll pid ++ [c.newMsg pid r t mo s]).map Message.id = _
    rw [List.map_append, bumpAll_ids]
    rfl
  -- structural facts about a member of the bumped list
  have hstr : ∀ x ∈ c.bumpAll pid, ∃ m ∈ c.messages,
      x.id = m.id ∧ x.parentId = m.parentId ∧
      (x.childrenIds = m.childrenIds ∨
        (pid = some m.id ∧ x.childrenIds = m.childrenIds ++ [c.nextId])) := by
    intro x hx
    obtain ⟨m, hm, hcase⟩ := mem_bumpAll hx
    rcases hcase with heq | ⟨p, hp, heq⟩
    · exact ⟨m, hm, by rw [heq], by rw [heq], Or.inl (by rw [heq])⟩
    · subst heq
      refine ⟨m, hm, bump_id, bump_parentId, ?_⟩
      rw [bump_childrenIds]
      by_cases hmp : m.id == p
      · have : m.id = p := by simpa using hmp
        subst this
        rw [if_pos hmp]
        exact Or.inr ⟨hp, rfl⟩
      · rw [if_neg hmp]
        exact Or.inl rfl
  have hmem : ∀ x : Message,
      x ∈ c.bumpAll pid ++ [c.newMsg pid r t mo s] →
        x ∈ c.bumpAll pid ∨ x = c.newMsg pid r t mo s := by
    intro x hx
    rcases List.mem_append.1 hx with hx | hx
    · exact Or.inl hx
    · exact Or.inr (List.mem_singleton.1 hx)
  have hoccs : ∀ q, occIn (c.bumpAll pid ++ [c.newMsg pid r t mo s]) q =
      occIn (c.bumpAll pid) q := by
    intro q
    rw [occIn_append, occIn_newMsg]
    omega
  refine ⟨?_, ?_, ?_, ?_, ?_, ?_, ?_, ?_, ?_⟩
  · -- ids bounded by the new counter
    intro x hx
    rcases hmem x hx with hx | rfl
    · obtain ⟨m, hm, hid, -, -⟩ := hstr x hx
      have := h1 m hm
      show x.id < c.nextId + 1
      omega
    · show c.nextId < c.nextId + 1
      omega
  · -- ids unique
    rw [hids]
    apply List.Nodup.append h2 (List.nodup_singleton _)
    intro a ha hb
    have : a = c.nextId := List.mem_singleton.1 hb
    subst this
    obtain ⟨m, hm, hid⟩ := List.mem_map.1 ha
    have := h1 m hm
    omega
  · -- children ids bounded
    intro x hx jj hjj
    rcases hmem x hx with hx | rfl
    · obtain ⟨m, hm, -, -, hch⟩ := hstr x hx
      show jj < c.nextId + 1
      rcases hch with hch | ⟨-, hch⟩
      · have := h3 m hm jj (hch ▸ hjj)
        omega
      · rw [hch] at hjj
        rcases List.mem_append.1 hjj with hjj | hjj
        · have := h3 m hm jj hjj
          omega
        · have : jj = c.nextId := List.mem_singleton.1 hjj
          omega
    · simp [newMsg] at hjj
  · -- children ids present
    intro x hx jj hjj
    rw [hids]
    rcases hmem x hx with hx | rfl
    · obtain ⟨m, hm, -, -, hch⟩ := hstr x hx
      rcases hch with hch | ⟨-, hch⟩
      · exact List.mem_append_left _ (h4 m hm jj (hch ▸ hjj))
      · rw [hch] at hjj
        rcases List.mem_append.1 hjj with hjj | hjj
        · exact List.mem_append_left _ (h4 m hm jj hjj)
        · exact List.mem_append_right _ hjj
    · simp [newMsg] at hjj
  · -- children lists duplicate-free
    intro x hx
    rcases hmem x hx with hx | rfl
    · obtain ⟨m, hm, -, -, hch⟩ := hstr x hx
      rcases hch with hch | ⟨-, hch⟩
      · exact hch ▸ h5 m hm
      · rw [hch]
        apply List.Nodup.append (h5 m hm) (List.nodup_singleton _)
        intro a ha hb
        have : a = c.nextId := List.mem_singleton.1 hb
        subst this
        have := h3 m hm _ ha
        omega
    · show ([] : List Nat).Nodup
      exact List.nodup_nil
  · -- parent pointers present
    intro x hx p0 hp0
    rw [hids]
    rcases hmem x hx with hx | rfl
    · obtain ⟨m, hm, -, hpar, -⟩ := hstr x hx
      exact List.mem_append_left _ (h6 m hm p0 (hpar ▸ hp0))
    · have : pid = some p0 := hp0
      exact List.mem_append_left _ (hpm p0 this)
  · -- a child's node records this parent
    intro x hx jj hjj y hy hyid
    rcases hmem x hx with hx | rfl
    · obtain ⟨m, hm, hxid, -, hch⟩ := hstr x hx
      have hjcase : jj ∈ m.childrenIds ∨ (pid = some m.id ∧ jj = c.nextId) := by
        rcases hch with hch | ⟨hpid, hch⟩
        · exact Or.inl (hch ▸ hjj)
        · rw [hch] at hjj
          rcases List.mem_append.1 hjj with hjj | hjj
          · exact Or.inl hjj
          · exact Or.inr ⟨hpid, List.mem_singleton.1 hjj⟩
      rcases hjcase with hjm | ⟨hpid, rfl⟩
      · -- an old child: its node is an old node
        rcases hmem y hy with hy | rfl
        · obtain ⟨mc, hmc, hycid, hypar, -⟩ := hstr y hy
          rw [hypar, hxid]
          exact h7 m hm jj hjm mc hmc (hycid.symm.trans hyid)
        · have : jj < c.nextId := h3 m hm jj hjm
          rw [show (c.newMsg pid r t mo s).id = c.nextId from rfl] at hyid
          omega
      · -- the fresh child: its node is the fresh node and pid is this parent
        rcases hmem y hy with hy | rfl
        · obtain ⟨mc, hmc, hycid, -, -⟩ := hstr y hy
          have := h1 mc hmc
          rw [hycid] at hyid
          omega
        · show pid = some x.id
          rw [hxid]
          exact hpid
    · simp [newMsg] at hjj
  · -- roots occur in no childrenIds
    intro x hx hp0
    show occIn (c.bumpAll pid ++ [c.newMsg pid r t mo s]) x.id = 0
    rw [hoccs]
    rcases hmem x hx with hx | rfl
    · obtain ⟨m, hm, hxid, hpar, -⟩ := hstr x hx
      have hlt : m.id < c.nextId := h1 m hm
      rw [hxid, occIn_bumpAll_ne (by omega)]
      exact h8 m hm (hpar ▸ hp0)
    · -- the fresh node is a root only when pid = none
      have hpid : pid = none := hp0
      subst hpid
      show occIn c.messages c.nextId = 0
      apply occIn_eq_zero
      intro m hm hmem'
      exact absurd (h3 m hm _ hmem') (by omega)
  · -- non-roots occur in exactly one childrenIds
    intro x hx p0 hp0
    show occIn (c.bumpAll pid ++ [c.newMsg pid r t mo s]) x.id = 1
    rw [hoccs]
    rcases hmem x hx with hx | rfl
    · obtain ⟨m, hm, hxid, hpar, -⟩ := hstr x hx
      have hlt : m.id < c.nextId := h1 m hm
      rw [hxid, occIn_bumpAll_ne (by omega)]
      exact h9 m hm p0 (hpar ▸ hp0)
    · have hpid : pid = some p0 := hp0
      subst hpid
      show occIn (c.bumpAll (some p0)) c.nextId = 1
      exact occIn_bumpAll_new h2 (hpm p0 rfl) h3

theorem WF_setLeaves {x : List Nat} : WF { c with activeLeafIds := x } ↔ WF c :=
  Iff.rfl


theorem WF_of_wfCheck (h : wfCheck c = true) : WF c := by
  rw [wfCheck, Bool.and_eq_true, List.all_eq_true] at h
  obtain ⟨hall, hnodup⟩ := h
  have hnodup' : c.ids.Nodup := of_decide_eq_true hnodup
  have hget : ∀ m ∈ c.messages,
      m.id < c.nextId ∧
      (∀ j2 ∈ m.childrenIds, j2 < c.nextId ∧ j2 ∈ c.ids) ∧
      m.childrenIds.Nodup ∧
      (match m.parentId with
       | none => c.childOccurrences m.id = 0
       | some p2 => p2 ∈ c.ids ∧ c.childOccurrences m.id = 1) ∧
      (∀ j2 ∈ m.childrenIds, ∀ mc ∈ c.messages, mc.id = j2 →
        mc.parentId = some m.id) := by
    intro m hm
    have := hall m hm
    simp only [Bool.and_eq_true, List.all_eq_true, decide_eq_true_eq,
      Bool.or_eq_true, Bool.not_eq_true', beq_eq_false_iff_ne] at this
    obtain ⟨⟨⟨⟨h1, h2⟩, h3⟩, h4⟩, h5⟩ := this
    refine ⟨h1, fun j2 hj2 => h2 j2 hj2, h3, ?_, ?_⟩
    · cases hp : m.parentId with
      | none =>
          rw [hp] at h4
          simpa using h4
      | some p2 =>
          rw [hp] at h4
          simpa [Bool.and_eq_true] using h4
    · intro j2 hj2 mc hmc hid
      rcases h5 j2 hj2 mc hmc with hne | hpar
      · exact absurd hid hne
      · exact hpar
  refine ⟨fun m hm => (hget m hm).1, hnodup',
    fun m hm j2 hj2 => ((hget m hm).2.1 j2 hj2).1,
    fun m hm j2 hj2 => ((hget m hm).2.1 j2 hj2).2,
    fun m hm => (hget m hm).2.2.1, ?_, fun m hm => (hget m hm).2.2.2.2, ?_, ?_⟩
  · intro m hm p2 hp2
    have h4 := (hget m hm).2.2.2.1
    rw [hp2] at h4
    exact h4.1
  · intro m hm hp2
    have h4 := (hget m hm).2.2.2.1
    rw [hp2] at h4
    exact h4
  · intro m hm p2 hp2
    have h4 := (hget m hm).2.2.2.1
    rw [hp2] at h4
    exact h4.2

theorem structPres_content {t : String} :
    StructPres (fun m' : Message => { m' with content := t }) :=
  fun _ => ⟨rfl, rfl, rfl, rfl, rfl⟩

theorem structPres_append_content {d : String} :
    StructPres (fun m' : Message => { m' with content := m'.content ++ d }) :=
  fun _ => ⟨rfl, rfl, rfl, rfl, rfl⟩

theorem structPres_status {s : Status} :
    StructPres (fun m' : Message => { m' with status := s }) :=
  fun _ => ⟨rfl, rfl, rfl, rfl, rfl⟩

theorem WF_updateContent {d : String}
    (h : c.updateContent i d = some c') (hw : WF c) : WF c' := by
  rw [updateContent] at h
  split at h
  · split at h
    · exact Option.some.inj h ▸ WF_mapMsg structPres_append_content hw
    · cases h
  · cases h

theorem WF_replaceContent {t : String}
    (h : c.replaceContent i t = some c') (hw : WF c) : WF c' := by
  rw [replaceContent] at h
  split at h
  · split at h
    · exact Option.some.inj h ▸ WF_mapMsg structPres_content hw
    · cases h
  · cases h

theorem WF_setStatus {s : Status}
    (h : c.setStatus i s = some c') (hw : WF c) : WF c' := by
  rw [setStatus] at h
  split at h
  · split at h
    · exact Option.some.inj h ▸ WF_mapMsg structPres_status hw
    · cases h
  · cases h

theorem WF_continueResponse
    (h : c.continueResponse i = some c') (hw : WF c) : WF c' := by
  rw [continueResponse] at h
  split at h
  · split at h
    · exact Option.some.inj h ▸ WF_mapMsg structPres_status hw
    · cases h
  · cases h

theorem WF_getD_of (o : Option Conversation)
    (ho : ∀ c', o = some c' → WF c → WF c') (hw : WF c) : WF (o.getD c) := by
  cases h : o with
  | none => exact hw
  | some c2 => exact ho c2 h hw

theorem WF_cancel (hw : WF c) : WF (c.cancel i) := by
  rw [cancel]
  split
  · split
    · exact WF_getD_of _ (fun c2 h2 => WF_setStatus h2) hw
    · exact hw
  · exact hw

theorem WF_startTurn {mids : List Nat} (hw : WF c) :
    WF (c.startTurn i mids) := by
  rw [startTurn]
  rw [WF_setLeaves]
  suffices hgen : ∀ (mids : List Nat) (c0 : Conversation) (acc : List Nat), WF c0 →
      WF ((mids.foldl (turnStep i) (c0, acc)).1) by
    exact hgen mids c [] hw
  intro mids
  induction mids with
  | nil => intro c0 acc h0; exact h0
  | cons a t ih =>
      intro c0 acc h0
      rw [List.foldl_cons, turnStep]
      cases hstep : c0.appendChild (some i) .assistant "" (some a) .pending with
      | none => simp only [hstep]; exact ih c0 acc h0
      | some r =>
          simp only [hstep]
          exact ih r.1 (acc ++ [r.2]) (WF_appendChild h0 (by rw [hstep]))

theorem WF_addModel {mid : Nat}
    (h : c.addModel i mid = some c') (hw : WF c) : WF c' := by
  rw [addModel] at h
  cases happ : c.appendChild (some i) .assistant "" (some mid) .pending with
  | none => rw [happ] at h; cases h
  | some r =>
      rw [happ] at h
      have := WF_appendChild hw (happ.trans (congrArg some (Prod.mk.eta).symm))
      obtain rfl := Option.some.inj h.symm
      exact (WF_setLeaves).2 this

theorem WF_removeModel {mid : Nat}
    (h : c.removeModel i mid = some c') (hw : WF c) : WF c' := by
  rw [removeModel] at h
  split at h
  · split at h
    · obtain rfl := Option.some.inj h.symm
      exact (WF_setLeaves).2 (WF_cancel hw)
    · cases h
  · cases h

theorem WF_regenerate (h : c.regenerate i = some c') (hw : WF c) : WF c' := by
  rw [regenerate] at h
  split at h
  · split at h
    · cases happ : Conversation.appendChild _ _ _ _ _ _ with
      | none => rw [happ] at h; cases h
      | some r =>
          rw [happ] at h
          obtain rfl := Option.some.inj h.symm
          exact (WF_setLeaves).2
            (WF_appendChild hw (happ.trans (congrArg some (Prod.mk.eta).symm)))
    · cases h
  · cases h

theorem WF_sendMessage {t : String}
    (h : c.sendMessage t = some c') (hw : WF c) : WF c' := by
  rw [sendMessage] at h
  cases happ : c.appendChild c.threadTip .user t none .complete with
  | none => rw [happ] at h; cases h
  | some r =>
      rw [happ] at h
      obtain rfl := Option.some.inj h.symm
      exact WF_startTurn
        (WF_appendChild hw (happ.trans (congrArg some (Prod.mk.eta).symm)))

theorem WF_editUserMessage {t : String} {b : Bool}
    (h : c.editUserMessage i t b = some c') (hw : WF c) : WF c' := by
  rw [editUserMessage] at h
  split at h
  · next m hm =>
      split at h
      · cases b with
        | false =>
            exact WF_replaceContent h hw
        | true =>
            cases happ : c.appendChild m.parentId .user t none .complete with
            | none => rw [happ] at h; cases h
            | some r =>
                rw [happ] at h
                obtain rfl := Option.some.inj h.symm
                exact WF_startTurn
                  (WF_appendChild hw (happ.trans (congrArg some (Prod.mk.eta).symm)))
      · cases h
  · cases h

theorem WF_editAssistantMessage {t : String} {b : Bool}
    (h : c.editAssistantMessage i t b = some c') (hw : WF c) : WF c' := by
  rw [editAssistantMessage] at h
  split at h
  · next m hm =>
      split at h
      · cases b with
        | false =>
            exact WF_replaceContent h hw
        | true =>
            cases happ : c.appendChild m.parentId .assistant t m.modelId .complete with
            | none => rw [happ] at h; cases h
            | some r =>
                rw [happ] at h
                obtain rfl := Option.some.inj h.symm
                exact WF_appendChild hw (happ.trans (congrArg some (Prod.mk.eta).symm))
      · cases h
  · cases h

theorem WF_applyStream {e : StreamEv} (hw : WF c) : WF (c.applyStream e) := by
  cases e with
  | start i => exact WF_getD_of _ (fun c2 h2 => WF_setStatus h2) hw
  | chunk i d => exact WF_getD_of _ (fun c2 h2 => WF_updateContent h2) hw
  | finish i => exact WF_getD_of _ (fun c2 h2 => WF_setStatus h2) hw
  | fail i => exact WF_getD_of _ (fun c2 h2 => WF_setStatus h2) hw

theorem WF_applyOp {o : Op} (hw : WF c) : WF (c.applyOp o) := by
  cases o with
  | send t => exact WF_getD_of _ (fun c2 h2 => WF_sendMessage h2) hw
  | editUser i t r => exact WF_getD_of _ (fun c2 h2 => WF_editUserMessage h2) hw
  | editAssistant i t a =>
      exact WF_getD_of _ (fun c2 h2 => WF_editAssistantMessage h2) hw
  | regen i => exact WF_getD_of _ (fun c2 h2 => WF_regenerate h2) hw
  | cont i => exact WF_getD_of _ (fun c2 h2 => WF_continueResponse h2) hw
  | addModel u mid => exact WF_getD_of _ (fun c2 h2 => WF_addModel h2) hw
  | removeModel u mid => exact WF_getD_of _ (fun c2 h2 => WF_removeModel h2) hw
  | stopOne i => exact WF_cancel hw
  | stream e => exact WF_applyStream hw

theorem WF_applyOps {ops : List Op} (hw : WF c) : WF (c.applyOps ops) := by
  rw [applyOps]
  induction ops generalizing c with
  | nil => exact hw
  | cons o t ih => exact ih (WF_applyOp hw)


theorem roleInv_mapMsg {f : Message → Message} (hf : StructPres f)
    (h : RoleInv c) : RoleInv (c.mapMsg i f) := by
  intro x hx
  obtain ⟨m, hm, rfl⟩ := List.mem_map.1 hx
  by_cases hc : m.id == i
  · rw [if_pos hc, (hf m).2.2.2.1, (hf m).2.2.2.2]
    exact h m hm
  · rw [if_neg hc]
    exact h m hm

theorem roleInv_appendChild {r : Role} {t : String} {mo : Option Nat}
    {s : Status} {pid : Option Nat} (hr : r = .user → mo = none)
    (h : c.appendChild pid r t mo s = some (c', j)) (hri : RoleInv c) :
    RoleInv c' := by
  obtain ⟨-, hc'⟩ := appendChild_dest h
  subst hc'
  intro x hx
  rcases List.mem_append.1 hx with hx | hx
  · obtain ⟨m, hm, hcase⟩ := mem_bumpAll hx
    rcases hcase with heq | ⟨p, -, heq⟩
    · exact heq ▸ hri m hm
    · subst heq
      rw [bump_role, bump_modelId]
      exact hri m hm
  · obtain rfl := List.mem_singleton.1 hx
    exact hr

theorem assistant_user_vacuous {mo : Option Nat} :
    Role.assistant = Role.user → mo = none :=
  fun he => nomatch he

theorem roleInv_setLeaves {x : List Nat} :
    RoleInv { c with activeLeafIds := x } ↔ RoleInv c :=
  Iff.rfl

theorem roleInv_getD_of (o : Option Conversation)
    (ho : ∀ c2, o = some c2 → RoleInv c → RoleInv c2) (hw : RoleInv c) :
    RoleInv (o.getD c) := by
  cases h : o with
  | none => exact hw
  | some c2 => exact ho c2 h hw

theorem roleInv_updateContent {d : String}
    (h : c.updateContent i d = some c') (hw : RoleInv c) : RoleInv c' := by
  rw [updateContent] at h
  split at h
  · split at h
    · exact Option.some.inj h ▸ roleInv_mapMsg structPres_append_content hw
    · cases h
  · cases h

theorem roleInv_replaceContent {t : String}
    (h : c.replaceContent i t = some c') (hw : RoleInv c) : RoleInv c' := by
  rw [replaceContent] at h
  split at h
  · split at h
    · exact Option.some.inj h ▸ roleInv_mapMsg structPres_content hw
    · cases h
  · cases h

theorem roleInv_setStatus {s : Status}
    (h : c.setStatus i s = some c') (hw : RoleInv c) : RoleInv c' := by
  rw [setStatus] at h
  split at h
  · split at h
    · exact Option.some.inj h ▸ roleInv_mapMsg structPres_status hw
    · cases h
  · cases h

theorem roleInv_continueResponse
    (h : c.continueResponse i = some c') (hw : RoleInv c) : RoleInv c' := by
  rw [continueResponse] at h
  split at h
  · split at h
    · exact Option.some.inj h ▸ roleInv_mapMsg structPres_status hw
    · cases h
  · cases h

theorem roleInv_cancel (hw : RoleInv c) : RoleInv (c.cancel i) := by
  rw [cancel]
  split
  · split
    · exact roleInv_getD_of _ (fun c2 h2 => roleInv_setStatus h2) hw
    · exact hw
  · exact hw

theorem roleInv_startTurn {mids : List Nat} (hw : RoleInv c) :
    RoleInv (c.startTurn i mids) := by
  rw [startTurn]
  rw [roleInv_setLeaves]
  suffices hgen : ∀ (mids : List Nat) (c0 : Conversation) (acc : List Nat),
      RoleInv c0 →
      RoleInv ((mids.foldl (turnStep i) (c0, acc)).1) by
    exact hgen mids c [] hw
  intro mids
  induction mids with
  | nil => intro c0 acc h0; exact h0
  | cons a t ih =>
      intro c0 acc h0
      rw [List.foldl_cons, turnStep]
      cases hstep : c0.appendChild (some i) .assistant "" (some a) .pending with
      | none => simp only [hstep]; exact ih c0 acc h0
      | some r =>
          simp only [hstep]
          refine ih r.1 (acc ++ [r.2]) ?_
          exact roleInv_appendChild assistant_user_vacuous
            (hstep.trans (congrArg some (Prod.mk.eta).symm)) h0

theorem roleInv_addModel {mid : Nat}
    (h : c.addModel i mid = some c') (hw : RoleInv c) : RoleInv c' := by
  rw [addModel] at h
  cases happ : c.appendChild (some i) .assistant "" (some mid) .pending with
  | none => rw [happ] at h; cases h
  | some r =>
      rw [happ] at h
      obtain rfl := Option.some.inj h.symm
      exact (roleInv_setLeaves).2 (roleInv_appendChild assistant_user_vacuous
        (happ.trans (congrArg some (Prod.mk.eta).symm)) hw)

theorem roleInv_removeModel {mid : Nat}
    (h : c.removeModel i mid = some c') (hw : RoleInv c) : RoleInv c' := by
  rw [removeModel] at h
  split at h
  · split at h
    · obtain rfl := Option.some.inj h.symm
      exact (roleInv_setLeaves).2 (roleInv_cancel hw)
    · cases h
  · cases h

theorem roleInv_regenerate (h : c.regenerate i = some c') (hw : RoleInv c) :
    RoleInv c' := by
  rw [regenerate] at h
  split at h
  · split at h
    · cases happ : Conversation.appendChild _ _ _ _ _ _ with
      | none => rw [happ] at h; cases h
      | some r =>
          rw [happ] at h
          obtain rfl := Option.some.inj h.symm
          exact (roleInv_setLeaves).2 (roleInv_appendChild assistant_user_vacuous
            (happ.trans (congrArg some (Prod.mk.eta).symm)) hw)
    · cases h
  · cases h

theorem roleInv_sendMessage {t : String}
    (h : c.sendMessage t = some c') (hw : RoleInv c) : RoleInv c' := by
  rw [sendMessage] at h
  cases happ : c.appendChild c.threadTip .user t none .complete with
  | none => rw [happ] at h; cases h
  | some r =>
      rw [happ] at h
      obtain rfl := Option.some.inj h.symm
      exact roleInv_startTurn (roleInv_appendChild (fun _ => rfl)
        (happ.trans (congrArg some (Prod.mk.eta).symm)) hw)

theorem roleInv_editUserMessage {t : String} {b : Bool}
    (h : c.editUserMessage i t b = some c') (hw : RoleInv c) : RoleInv c' := by
  rw [editUserMessage] at h
  split at h
  · next m hm =>
      split at h
      · cases b with
        | false => exact roleInv_replaceContent h hw
        | true =>
            cases happ : c.appendChild m.parentId .user t none .complete with
            | none => rw [happ] at h; cases h
            | some r =>
                rw [happ] at h
                obtain rfl := Option.some.inj h.symm
                exact roleInv_startTurn (roleInv_appendChild (fun _ => rfl)
                  (happ.trans (congrArg some (Prod.mk.eta).symm)) hw)
      · cases h
  · cases h

theorem roleInv_editAssistantMessage {t : String} {b : Bool}
    (h : c.editAssistantMessage i t b = some c') (hw : RoleInv c) :
    RoleInv c' := by
  rw [editAssistantMessage] at h
  split at h
  · next m hm =>
      split at h
      · cases b with
        | false => exact roleInv_replaceContent h hw
        | true =>
            cases happ : c.appendChild m.parentId .assistant t m.modelId .complete with
            | none => rw [happ] at h; cases h
            | some r =>
                rw [happ] at h
                obtain rfl := Option.some.inj h.symm
                exact roleInv_appendChild assistant_user_vacuous
                  (happ.trans (congrArg some (Prod.mk.eta).symm)) hw
      · cases h
  · cases h

theorem roleInv_applyStream {e : StreamEv} (hw : RoleInv c) :
    RoleInv (c.applyStream e) := by
  cases e with
  | start i => exact roleInv_getD_of _ (fun c2 h2 => roleInv_setStatus h2) hw
  | chunk i d => exact roleInv_getD_of _ (fun c2 h2 => roleInv_updateContent h2) hw
  | finish i => exact roleInv_getD_of _ (fun c2 h2 => roleInv_setStatus h2) hw
  | fail i => exact roleInv_getD_of _ (fun c2 h2 => roleInv_setStatus h2) hw

theorem roleInv_applyOp {o : Op} (hw : RoleInv c) : RoleInv (c.applyOp o) := by
  cases o with
  | send t => exact roleInv_getD_of _ (fun c2 h2 => roleInv_sendMessage h2) hw
  | editUser i t r =>
      exact roleInv_getD_of _ (fun c2 h2 => roleInv_editUserMessage h2) hw
  | editAssistant i t a =>
      exact roleInv_getD_of _ (fun c2 h2 => roleInv_editAssistantMessage h2) hw
  | regen i => exact roleInv_getD_of _ (fun c2 h2 => roleInv_regenerate h2) hw
  | cont i => exact roleInv_getD_of _ (fun c2 h2 => roleInv_continueResponse h2) hw
  | addModel u mid => exact roleInv_getD_of _ (fun c2 h2 => roleInv_addModel h2) hw
  | removeModel u mid =>
      exact roleInv_getD_of _ (fun c2 h2 => roleInv_removeModel h2) hw
  | stopOne i => exact roleInv_cancel hw
  | stream e => exact roleInv_applyStream hw

theorem roleInv_applyOps {ops : List Op} (hw : RoleInv c) :
    RoleInv (c.applyOps ops) := by
  rw [applyOps]
  induction ops generalizing c with
  | nil => exact hw
  | cons o t ih => exact ih (roleInv_applyOp hw)

theorem WF_init (mids : List Nat) :
    WF { messages := [], activeLeafIds := [], selectedModelIds := mids,
         nextId := 0 } := by
  refine ⟨?_, ?_, ?_, ?_, ?_, ?_, ?_, ?_, ?_⟩ <;> simp [ids]

theorem roleInv_init (mids : List Nat) :
    RoleInv { messages := [], activeLeafIds := [], selectedModelIds := mids,
              nextId := 0 } :=
  fun _ hm => nomatch hm

end Conversation


namespace Conversation

variable {c c' : Conversation} {i j p q : Nat}

theorem strLength_pos {s : String} (h : s ≠ "") : 0 < s.length := by
  cases s with
  | mk data =>
      cases data with
      | nil => exact absurd rfl h
      | cons a t => simp [String.length]

/-- Folding the chunk events of one stream appends their concatenation to the
streaming node's content. -/
theorem deliver_chunks {i : Nat} (chunks : List String) :
    ∀ (c : Conversation) (m : Message), c.find? i = some m →
      m.status = .streaming →
      ((chunks.map (StreamEv.chunk i)).foldl applyStream c).find? i =
        some { m with content := m.content ++ concatChunks chunks } := by
  induction chunks with
  | nil =>
      intro c m hm _
      simp only [List.map_nil, List.foldl_nil, concatChunks]
      rw [String.append_empty]
      exact hm
  | cons d rest ih =>
      intro c m hm hs
      rw [List.map_cons, List.foldl_cons]
      have happ : c.applyStream (StreamEv.chunk i d) =
          c.mapMsg i (fun m' => { m' with content := m'.content ++ d }) := by
        show (c.updateContent i d).getD c = _
        rw [updateContent, hm]
        dsimp only
        rw [if_pos (by simp [hs] : (m.status == Status.streaming) = true)]
        rfl
      rw [happ]
      have hm1 : (c.mapMsg i
          (fun m' => { m' with content := m'.content ++ d })).find? i =
          some { m with content := m.content ++ d } := by
        rw [mapMsg_find?_self structPres_append_content.idPres, hm]
        rfl
      rw [ih _ _ hm1 hs]
      rw [concatChunks, ← String.append_assoc]

theorem setStatus_eq {s : Status} (h : c.setStatus i s = some c') :
    c' = c.mapMsg i (fun m' => { m' with status := s }) := by
  rw [setStatus] at h
  split at h
  · split at h
    · exact (Option.some.inj h).symm
    · cases h
  · cases h

theorem updateContent_eq {d : String} (h : c.updateContent i d = some c') :
    c' = c.mapMsg i (fun m' => { m' with content := m'.content ++ d }) := by
  rw [updateContent] at h
  split at h
  · split at h
    · exact (Option.some.inj h).symm
    · cases h
  · cases h

theorem mapMsg_map_proj {α : Type} {f : Message → Message} (g : Message → α)
    (hf : IdPres f) (hg : ∀ m, g (f m) = g m) :
    ((c.mapMsg i f).find? q).map g = (c.find? q).map g := by
  by_cases hq : q = i
  · subst hq
    rw [mapMsg_find?_self hf]
    cases h : c.find? q <;> simp [hg]
  · rw [mapMsg_find?_other hf hq]

theorem applyStream_childrenOf {e : StreamEv} :
    (c.applyStream e).childrenOf q = c.childrenOf q := by
  cases e with
  | start i =>
      show ((c.setStatus i .streaming).getD c).childrenOf q = _
      cases h : c.setStatus i .streaming with
      | none => rfl
      | some c2 =>
          obtain rfl := setStatus_eq h
          exact mapMsg_map_proj Message.childrenIds
            (structPres_status).idPres (fun _ => rfl)
  | chunk i d =>
      show ((c.updateContent i d).getD c).childrenOf q = _
      cases h : c.updateContent i d with
      | none => rfl
      | some c2 =>
          obtain rfl := updateContent_eq h
          exact mapMsg_map_proj Message.childrenIds
            (structPres_append_content).idPres (fun _ => rfl)
  | finish i =>
      show ((c.setStatus i .complete).getD c).childrenOf q = _
      cases h : c.setStatus i .complete with
      | none => rfl
      | some c2 =>
          obtain rfl := setStatus_eq h
          exact mapMsg_map_proj Message.childrenIds
            (structPres_status).idPres (fun _ => rfl)
  | fail i =>
      show ((c.setStatus i .failed).getD c).childrenOf q = _
      cases h : c.setStatus i .failed with
      | none => rfl
      | some c2 =>
          obtain rfl := setStatus_eq h
          exact mapMsg_map_proj Message.childrenIds
            (structPres_status).idPres (fun _ => rfl)

theorem applyStream_modelOf {e : StreamEv} :
    (c.applyStream e).modelOf q = c.modelOf q := by
  cases e with
  | start i =>
      show ((c.setStatus i .streaming).getD c).modelOf q = _
      cases h : c.setStatus i .streaming with
      | none => rfl
      | some c2 =>
          obtain rfl := setStatus_eq h
          exact mapMsg_map_proj Message.modelId
            (structPres_status).idPres (fun _ => rfl)
  | chunk i d =>
      show ((c.updateContent i d).getD c).modelOf q = _
      cases h : c.updateContent i d with
      | none => rfl
      | some c2 =>
          obtain rfl := updateContent_eq h
          exact mapMsg_map_proj Message.modelId
            (structPres_append_content).idPres (fun _ => rfl)
  | finish i =>
      show ((c.setStatus i .complete).getD c).modelOf q = _
      cases h : c.setStatus i .complete with
      | none => rfl
      | some c2 =>
          obtain rfl := setStatus_eq h
          exact mapMsg_map_proj Message.modelId
            (structPres_status).idPres (fun _ => rfl)
  | fail i =>
      show ((c.setStatus i .failed).getD c).modelOf q = _
      cases h : c.setStatus i .failed with
      | none => rfl
      | some c2 =>
          obtain rfl := setStatus_eq h
          exact mapMsg_map_proj Message.modelId
            (structPres_status).idPres (fun _ => rfl)

theorem applyStream_roleOf {e : StreamEv} :
    (c.applyStream e).roleOf q = c.roleOf q := by
  cases e with
  | start i =>
      show ((c.setStatus i .streaming).getD c).roleOf q = _
      cases h : c.setStatus i .streaming with
      | none => rfl
      | some c2 =>
          obtain rfl := setStatus_eq h
          exact mapMsg_map_proj Message.role
            (structPres_status).idPres (fun _ => rfl)
  | chunk i d =>
      show ((c.updateContent i d).getD c).roleOf q = _
      cases h : c.updateContent i d with
      | none => rfl
      | some c2 =>
          obtain rfl := updateContent_eq h
          exact mapMsg_map_proj Message.role
            (structPres_append_content).idPres (fun _ => rfl)
  | finish i =>
      show ((c.setStatus i .complete).getD c).roleOf q = _
      cases h : c.setStatus i .complete with
      | none => rfl
      | some c2 =>
          obtain rfl := setStatus_eq h
          exact mapMsg_map_proj Message.role
            (structPres_status).idPres (fun _ => rfl)
  | fail i =>
      show ((c.setStatus i .failed).getD c).roleOf q = _
      cases h : c.setStatus i .failed with
      | none => rfl
      | some c2 =>
          obtain rfl := setStatus_eq h
          exact mapMsg_map_proj Message.role
            (structPres_status).idPres (fun _ => rfl)

theorem foldStream_childrenOf {evs : List StreamEv} :
    (evs.foldl applyStream c).childrenOf q = c.childrenOf q := by
  induction evs generalizing c with
  | nil => rfl
  | cons e t ih => rw [List.foldl_cons, ih, applyStream_childrenOf]

theorem foldStream_modelOf {evs : List StreamEv} :
    (evs.foldl applyStream c).modelOf q = c.modelOf q := by
  induction evs generalizing c with
  | nil => rfl
  | cons e t ih => rw [List.foldl_cons, ih, applyStream_modelOf]

theorem foldStream_roleOf {evs : List StreamEv} :
    (evs.foldl applyStream c).roleOf q = c.roleOf q := by
  induction evs generalizing c with
  | nil => rfl
  | cons e t ih => rw [List.foldl_cons, ih, applyStream_roleOf]

theorem get_congr (l : List Nat) (i1 i2 : Nat) (h1 : i1 < l.length)
    (h2 : i2 < l.length) (he : i1 = i2) : l.get ⟨i1, h1⟩ = l.get ⟨i2, h2⟩ := by
  subst he
  rfl

theorem nextIn_get :
    ∀ (l : List Nat), l.Nodup → ∀ (idx : Nat) (h : idx + 1 < l.length),
      nextIn l (l.get ⟨idx, Nat.lt_of_succ_lt h⟩) = some (l.get ⟨idx + 1, h⟩) := by
  intro l
  induction l with
  | nil => intro _ idx h; simp at h
  | cons a tail ih =>
      intro hn idx h
      cases tail with
      | nil => simp at h
      | cons b rest =>
          cases idx with
          | zero =>
              show nextIn (a :: b :: rest) a = some b
              rw [nextIn, if_pos rfl]
          | succ n =>
              have hn2 := List.nodup_cons.1 hn
              have hlt : n + 1 < (b :: rest).length := by
                simpa using Nat.lt_of_succ_lt_succ h
              have hgm : (b :: rest).get ⟨n, Nat.lt_of_succ_lt hlt⟩ ∈
                  b :: rest := by
                rw [List.get_eq_getElem]
                exact List.getElem_mem _
              have hne : a ≠ (b :: rest).get ⟨n, Nat.lt_of_succ_lt hlt⟩ := by
                intro he
                exact hn2.1 (he ▸ hgm)
              show nextIn (a :: b :: rest)
                  ((b :: rest).get ⟨n, Nat.lt_of_succ_lt hlt⟩) =
                some ((b :: rest).get ⟨n + 1, hlt⟩)
              rw [nextIn, if_neg hne]
              exact ih hn2.2 n hlt

theorem prevIn_get :
    ∀ (l : List Nat), l.Nodup → ∀ (idx : Nat) (h : idx + 1 < l.length),
      prevIn l (l.get ⟨idx + 1, h⟩) = some (l.get ⟨idx, Nat.lt_of_succ_lt h⟩) := by
  intro l
  induction l with
  | nil => intro _ idx h; simp at h
  | cons a tail ih =>
      intro hn idx h
      cases tail with
      | nil => simp at h
      | cons b rest =>
          cases idx with
          | zero =>
              show prevIn (a :: b :: rest) b = some a
              rw [prevIn, if_pos rfl]
          | succ n =>
              have hn2 := List.nodup_cons.1 hn
              have hn3 := List.nodup_cons.1 hn2.2
              have hlt : n + 1 < (b :: rest).length := by
                simpa using Nat.lt_of_succ_lt_succ h
              have hlt2 : n < rest.length := by simpa using hlt
              have hgm : rest.get ⟨n, hlt2⟩ ∈ rest := by
                rw [List.get_eq_getElem]
                exact List.getElem_mem _
              have hne : b ≠ (b :: rest).get ⟨n + 1, hlt⟩ := by
                intro he
                have : (b :: rest).get ⟨n + 1, hlt⟩ = rest.get ⟨n, hlt2⟩ := by
                  rw [List.get_eq_getElem, List.get_eq_getElem]
                  exact List.getElem_cons_succ ..
                rw [this] at he
                exact hn3.1 (he ▸ hgm)
              show prevIn (a :: b :: rest) ((b :: rest).get ⟨n + 1, hlt⟩) =
                some ((b :: rest).get ⟨n, Nat.lt_of_succ_lt hlt⟩)
              rw [prevIn, if_neg hne]
              exact ih hn2.2 n hlt

theorem prevIn_append_last (l : List Nat) (b : Nat) (hb : b ∉ l) :
    prevIn (l ++ [b]) b = l.getLast? := by
  induction l with
  | nil => rfl
  | cons a t ih =>
      cases t with
      | nil =>
          show prevIn [a, b] b = some a
          rw [prevIn, if_pos rfl]
      | cons a2 t2 =>
          have hb2 : b ∉ a2 :: t2 := fun h => hb (List.mem_cons_of_mem a h)
          have hne : a2 ≠ b := fun h => hb2 (h ▸ List.mem_cons_self a2 t2)
          show prevIn (a :: a2 :: (t2 ++ [b])) b = (a :: a2 :: t2).getLast?
          rw [prevIn, if_neg hne, List.getLast?_cons_cons]
          exact ih hb2

theorem nextIn_append_getLast (l : List Nat) (b a : Nat) (hn : l.Nodup)
    (hlast : l.getLast? = some a) :
    nextIn (l ++ [b]) a = some b := by
  induction l with
  | nil => cases hlast
  | cons a0 t ih =>
      cases t with
      | nil =>
          have : a0 = a := by simpa using hlast
          subst this
          show nextIn [a0, b] a0 = some b
          rw [nextIn, if_pos rfl]
      | cons a1 t2 =>
          have hn2 := List.nodup_cons.1 hn
          rw [List.getLast?_cons_cons] at hlast
          have hamem : a ∈ a1 :: t2 := List.mem_of_getLast?_eq_some hlast
          have hne : a0 ≠ a := fun h => hn2.1 (h ▸ hamem)
          show nextIn (a0 :: a1 :: (t2 ++ [b])) a = some b
          rw [nextIn, if_neg hne]
          exact ih hn2.2 hlast

theorem mem_rootIds (hj : j ∈ c.rootIds) :
    ∃ mj ∈ c.messages, mj.id = j ∧ mj.parentId = none := by
  obtain ⟨mj, hmj, hid⟩ := List.mem_map.1 hj
  obtain ⟨hmem, hp⟩ := List.mem_filter.1 hmj
  exact ⟨mj, hmem, hid, Option.isNone_iff_eq_none.1 (by simpa using hp)⟩

theorem rootIds_nodup (hn : c.ids.Nodup) : c.rootIds.Nodup :=
  List.Nodup.sublist (List.Sublist.map Message.id (List.filter_sublist _)) hn

/-- Under well-formedness, every member of a sibling list has the same
sibling list: navigation stays inside one version set. -/
theorem siblings_stable {l : List Nat} (hw : WF c) (hi : c.siblingsOf i = l)
    (hj : j ∈ l) : c.siblingsOf j = l := by
  obtain ⟨hb, hn, hcb, hcc, hcn, hpc, hcl, h8, h9⟩ := hw
  rw [siblingsOf] at hi
  cases hmi : c.find? i with
  | none =>
      rw [hmi] at hi
      dsimp only at hi
      subst hi
      cases hj
  | some m =>
      rw [hmi] at hi
      dsimp only at hi
      cases hpar : m.parentId with
      | none =>
          rw [hpar] at hi
          dsimp only at hi
          subst hi
          obtain ⟨mj, hmem, hid, hpnone⟩ := mem_rootIds hj
          have hfj : c.find? j = some mj := hid ▸ find?_of_mem hn hmem
          rw [siblingsOf, hfj]
          dsimp only
          rw [hpnone]
      | some p =>
          rw [hpar] at hi
          dsimp only at hi
          cases hmp : c.find? p with
          | none =>
              rw [hmp] at hi
              dsimp only at hi
              subst hi
              cases hj
          | some pm =>
              rw [hmp] at hi
              dsimp only at hi
              subst hi
              have hpmem := mem_of_find? hmp
              have hjid : j ∈ c.ids := hcc pm hpmem j hj
              have hjsome : (c.find? j).isSome := find?_isSome_iff.2 hjid
              cases hfj : c.find? j with
              | none => rw [hfj] at hjsome; cases hjsome
              | some mj =>
                  have hmjmem := mem_of_find? hfj
                  have hmjid := id_of_find? hfj
                  have hparj : mj.parentId = some pm.id :=
                    hcl pm hpmem j hj mj hmjmem hmjid
                  rw [siblingsOf, hfj]
                  dsimp only
                  rw [hparj]
                  dsimp only
                  rw [id_of_find? hmp, hmp]

/-- Under well-formedness, sibling lists are duplicate-free. -/
theorem siblings_nodup {l : List Nat} (hw : WF c) (hi : c.siblingsOf i = l) :
    l.Nodup := by
  obtain ⟨hb, hn, hcb, hcc, hcn, hpc, hcl, h8, h9⟩ := hw
  rw [siblingsOf] at hi
  cases hmi : c.find? i with
  | none =>
      rw [hmi] at hi
      dsimp only at hi
      subst hi
      exact List.nodup_nil
  | some m =>
      rw [hmi] at hi
      dsimp only at hi
      cases hpar : m.parentId with
      | none =>
          rw [hpar] at hi
          dsimp only at hi
          subst hi
          exact rootIds_nodup hn
      | some p =>
          rw [hpar] at hi
          dsimp only at hi
          cases hmp : c.find? p with
          | none =>
              rw [hmp] at hi
              dsimp only at hi
              subst hi
              exact List.nodup_nil
          | some pm =>
              rw [hmp] at hi
              dsimp only at hi
              subst hi
              exact hcn pm (mem_of_find? hmp)

theorem iterNav_next {l : List Nat}
    (hstable : ∀ j2 ∈ l, c.siblingsOf j2 = l) (hnodup : l.Nodup) :
    ∀ (n idx : Nat) (h : idx + n < l.length),
      iterNav (c.next) n (l.get ⟨idx, by omega⟩) =
        some (l.get ⟨idx + n, h⟩) := by
  intro n
  induction n with
  | zero =>
      intro idx h
      rfl
  | succ n ih =>
      intro idx h
      have hmem : l.get ⟨idx, by omega⟩ ∈ l := by
        rw [List.get_eq_getElem]
        exact List.getElem_mem _
      have hx : c.next (l.get ⟨idx, by omega⟩) =
          some (l.get ⟨idx + 1, by omega⟩) := by
        rw [next, hstable _ hmem]
        exact nextIn_get l hnodup idx (by omega)
      rw [iterNav, hx, Option.some_bind]
      rw [ih (idx + 1) (by omega)]
      exact congrArg some (get_congr l _ _ _ _ (by omega))

theorem iterNav_previous {l : List Nat}
    (hstable : ∀ j2 ∈ l, c.siblingsOf j2 = l) (hnodup : l.Nodup) :
    ∀ (n idx : Nat) (h : idx + n < l.length),
      iterNav (c.previous) n (l.get ⟨idx + n, h⟩) =
        some (l.get ⟨idx, by omega⟩) := by
  intro n
  induction n with
  | zero =>
      intro idx h
      rfl
  | succ n ih =>
      intro idx h
      have hmem : l.get ⟨idx + (n + 1), h⟩ ∈ l := by
        rw [List.get_eq_getElem]
        exact List.getElem_mem _
      have hx : c.previous (l.get ⟨idx + (n + 1), h⟩) =
          some (l.get ⟨idx + n, by omega⟩) := by
        rw [previous, hstable _ hmem]
        exact prevIn_get l hnodup (idx + n) h
      rw [iterNav, hx, Option.some_bind]
      exact ih idx (by omega)

/-- Core facts about the state after appending an edit-as-copy sibling: the
copy carries the new text with status Complete under the same parent, the
navigator links it to the edited message when that message was the last
sibling, and nothing else changes content or status. -/
theorem editCopy_spec {aid : Nat} {am pm : Message} {t : String}
    (hw : WF c) (ham : c.find? aid = some am)
    (hpar : am.parentId = some p) (hpm : c.find? p = some pm)
    (hlast : pm.childrenIds.getLast? = some aid)
    (hmsgs : c'.messages = c.bumpAll (some p) ++
      [c.newMsg (some p) .assistant t am.modelId .complete]) :
    c'.contentOf c.nextId = some t ∧
    c'.statusOf c.nextId = some .complete ∧
    c'.roleOf c.nextId = some .assistant ∧
    (c'.find? c.nextId).map Message.parentId = some (some p) ∧
    c'.previous c.nextId = some aid ∧
    c'.next aid = some c.nextId ∧
    c'.contentOf aid = some am.content ∧
    (∀ q2, q2 ≠ c.nextId → c'.statusOf q2 = c.statusOf q2) := by
  have haid_lt : aid < c.nextId := by
    have := hw.1 am (mem_of_find? ham)
    rwa [id_of_find? ham] at this
  have hfB : c'.find? c.nextId =
      some (c.newMsg (some p) .assistant t am.modelId .complete) :=
    appendChild_find?_new hw.1 hmsgs
  have hfP : c'.find? p =
      some { pm with childrenIds := pm.childrenIds ++ [c.nextId] } :=
    appendChild_find?_parent hmsgs hpm
  have hnotmem : c.nextId ∉ pm.childrenIds := fun h =>
    absurd (hw.2.2.1 pm (mem_of_find? hpm) _ h) (by omega)
  refine ⟨?_, ?_, ?_, ?_, ?_, ?_, ?_, ?_⟩
  · rw [contentOf, hfB]
    rfl
  · rw [statusOf, hfB]
    rfl
  · rw [roleOf, hfB]
    rfl
  · rw [hfB]
    rfl
  · have hsibB : c'.siblingsOf c.nextId = pm.childrenIds ++ [c.nextId] := by
      rw [siblingsOf, hfB]
      dsimp only [newMsg]
      rw [hfP]
    rw [previous, hsibB, prevIn_append_last _ _ hnotmem, hlast]
  · have hsibA : c'.siblingsOf aid = pm.childrenIds ++ [c.nextId] := by
      by_cases haidp : aid = p
      · subst haidp
        have hampm : am = pm := Option.some.inj (ham.symm.trans hpm)
        have hppm : pm.parentId = some aid := by
          rw [← hampm, hpar]
        rw [siblingsOf, hfP]
        dsimp only
        rw [hppm]
        dsimp only
        rw [hfP]
      · have hfA : c'.find? aid = some am := by
          rw [appendChild_find?_old hmsgs (by omega)
            (fun hcon => haidp (Option.some.inj hcon).symm), ham]
        rw [siblingsOf, hfA]
        dsimp only
        rw [hpar]
        dsimp only
        rw [hfP]
    rw [next, hsibA]
    exact nextIn_append_getLast _ _ _
      (hw.2.2.2.2.1 pm (mem_of_find? hpm)) hlast
  · have hc : (c'.find? aid).map Message.content =
        (c.find? aid).map Message.content :=
      appendChild_find?_proj hmsgs (fun m2 => bump_content) (by omega)
    rw [contentOf, hc, ham]
    rfl
  · intro q2 hq2
    have hs : (c'.find? q2).map Message.status =
        (c.find? q2).map Message.status :=
      appendChild_find?_proj hmsgs (fun m2 => bump_status) hq2
    rw [statusOf, statusOf, hs]

/-- Effect of `cancel`: the tree, every content, and every other status are
untouched; a streaming node is recorded `Stopped`. -/
theorem cancel_spec (c : Conversation) (j : Nat) :
    (c.cancel j).ids = c.ids ∧
    (∀ q2, (c.cancel j).childrenOf q2 = c.childrenOf q2) ∧
    (∀ q2, (c.cancel j).contentOf q2 = c.contentOf q2) ∧
    (∀ q2, q2 ≠ j → (c.cancel j).statusOf q2 = c.statusOf q2) ∧
    (c.statusOf j = some .streaming → (c.cancel j).statusOf j = some .stopped) := by
  cases hmc : c.find? j with
  | none =>
      have hcc : c.cancel j = c := by rw [cancel, hmc]
      rw [hcc]
      exact ⟨rfl, fun _ => rfl, fun _ => rfl, fun _ _ => rfl,
        fun h => absurd h (by rw [statusOf, hmc]; exact fun h2 => nomatch h2)⟩
  | some mc =>
      by_cases hs : (mc.status == Status.streaming) = true
      · have hstream : mc.status = .streaming := by simpa using hs
        have hcc : c.cancel j =
            c.mapMsg j (fun m' => { m' with status := .stopped }) := by
          rw [cancel, hmc]
          dsimp only
          rw [if_pos hs]
          show (c.setStatus j .stopped).getD c = _
          rw [setStatus, hmc]
          dsimp only
          rw [if_pos (by rw [hstream]; rfl :
            allowedTransition mc.status .stopped = true)]
          rfl
        rw [hcc]
        refine ⟨mapMsg_ids structPres_status.idPres, ?_, ?_, ?_, ?_⟩
        · intro q2
          exact mapMsg_map_proj Message.childrenIds structPres_status.idPres
            (fun _ => rfl)
        · intro q2
          exact mapMsg_map_proj Message.content structPres_status.idPres
            (fun _ => rfl)
        · intro q2 hq2
          rw [statusOf, statusOf,
            mapMsg_find?_other structPres_status.idPres hq2]
        · intro h
          rw [statusOf, mapMsg_find?_self structPres_status.idPres, hmc]
          rfl
      · have hcc : c.cancel j = c := by
          rw [cancel, hmc]
          dsimp only
          rw [if_neg hs]
        rw [hcc]
        refine ⟨rfl, fun _ => rfl, fun _ => rfl, fun _ _ => rfl, fun h => ?_⟩
        rw [statusOf, hmc] at h
        have : mc.status = .streaming := by simpa using h
        exact absurd (by simp [this]) hs

/-- Appending one assistant child under `uid` raises the assistant-child
count by exactly one. -/
theorem afterAppend_count {uid mid : Nat} {um : Message} {r : Role}
    (hw : WF c) (hum : c.find? uid = some um) (hr : r = Role.assistant)
    (hmsgs : c'.messages = c.bumpAll (some uid) ++
      [c.newMsg (some uid) r "" (some mid) Status.pending]) :
    c'.assistantChildCount uid = c.assistantChildCount uid + 1 := by
  subst hr
  have hchA : c'.childrenOf uid = some (um.childrenIds ++ [c.nextId]) := by
    rw [childrenOf, appendChild_find?_parent hmsgs hum]
    rfl
  have hroleN : c'.roleOf c.nextId = some Role.assistant := by
    rw [roleOf, appendChild_find?_new hw.1 hmsgs]
    rfl
  rw [assistantChildCount, assistantChildCount, hchA, childrenOf, hum]
  dsimp only [Option.getD, Option.map]
  rw [List.countP_append]
  have hone : List.countP
      (fun j2 => c'.roleOf j2 == some Role.assistant) [c.nextId] = 1 := by
    rw [List.countP_cons]
    simp [hroleN]
  rw [hone]
  congr 1
  apply List.countP_congr
  intro j2 hj2
  have hjlt : j2 < c.nextId := hw.2.2.1 um (mem_of_find? hum) j2 hj2
  have hrole : c'.roleOf j2 = c.roleOf j2 :=
    appendChild_find?_proj hmsgs (fun m2 => bump_role) (by omega)
  rw [hrole]

/-- The cumulative effect of the fan-out fold: one fresh assistant child per
model id, appended to the user message's `childrenIds` in model order, with
all other messages untouched. -/
theorem startTurn_fold {uid : Nat} (mids : List Nat) :
    ∀ (c0 : Conversation) (acc : List Nat) (um0 : Message),
      WF c0 → c0.find? uid = some um0 →
      ∃ newIds : List Nat,
        (mids.foldl (turnStep uid) (c0, acc)).2 = acc ++ newIds ∧
        newIds.length = mids.length ∧
        WF (mids.foldl (turnStep uid) (c0, acc)).1 ∧
        (mids.foldl (turnStep uid) (c0, acc)).1.find? uid =
          some { um0 with childrenIds := um0.childrenIds ++ newIds } ∧
        (∀ q2, q2 ≠ uid → q2 < c0.nextId →
          (mids.foldl (turnStep uid) (c0, acc)).1.find? q2 = c0.find? q2) ∧
        newIds.map (mids.foldl (turnStep uid) (c0, acc)).1.modelOf =
          mids.map (fun mid => some (some mid)) ∧
        (∀ j2 ∈ newIds,
          (mids.foldl (turnStep uid) (c0, acc)).1.roleOf j2 =
            some .assistant) := by
  induction mids with
  | nil =>
      intro c0 acc um0 hw0 hm0
      refine ⟨[], by simp, rfl, hw0, ?_, fun q2 _ _ => rfl, rfl,
        fun j2 hj2 => nomatch hj2⟩
      simp only [List.append_nil]
      exact hm0
  | cons a rest ih =>
      intro c0 acc um0 hw0 hm0
      have hbound := hw0.1
      have huid_lt : uid < c0.nextId := by
        have := hbound um0 (mem_of_find? hm0)
        rwa [id_of_find? hm0] at this
      have happ : c0.appendChild (some uid) Role.assistant "" (some a)
          Status.pending =
          some ({ c0 with
                    messages := c0.bumpAll (some uid) ++
                      [c0.newMsg (some uid) Role.assistant "" (some a)
                        Status.pending]
                    nextId := c0.nextId + 1 }, c0.nextId) :=
        appendChild_isSome_of_parent (by rw [hm0]; rfl)
      cases hres : c0.appendChild (some uid) Role.assistant "" (some a)
          Status.pending with
      | none => rw [hres] at happ; cases happ
      | some pr =>
          obtain ⟨c1, j0⟩ := pr
          rw [hres] at happ
          obtain ⟨hc1, hj0⟩ := Prod.mk.injEq .. ▸ Option.some.inj happ
          subst hj0
          have hmsgs : c1.messages = c0.bumpAll (some uid) ++
              [c0.newMsg (some uid) Role.assistant "" (some a)
                Status.pending] := by
            rw [hc1]
          have hnext1 : c1.nextId = c0.nextId + 1 := by rw [hc1]
          have hw1 : WF c1 := WF_appendChild hw0 hres
          have hm1 : c1.find? uid =
              some { um0 with
                childrenIds := um0.childrenIds ++ [c0.nextId] } :=
            appendChild_find?_parent hmsgs hm0
          have hnew : c1.find? c0.nextId =
              some (c0.newMsg (some uid) Role.assistant "" (some a)
                Status.pending) :=
            appendChild_find?_new hbound hmsgs
          have hstep : turnStep uid (c0, acc) a = (c1, acc ++ [c0.nextId]) := by
            show (match c0.appendChild (some uid) Role.assistant "" (some a)
                Status.pending with
              | some (c2, j2) => (c2, acc ++ [j2])
              | none => (c0, acc)) = (c1, acc ++ [c0.nextId])
            rw [hres]
          rw [List.foldl_cons, hstep]
          obtain ⟨newIds', hacc, hlen, hwF, humF, hpers, hmodel, hrole⟩ :=
            ih c1 (acc ++ [c0.nextId]) _ hw1 hm1
          have hNpers : (rest.foldl (turnStep uid)
              (c1, acc ++ [c0.nextId])).1.find? c0.nextId =
              c1.find? c0.nextId := by
            apply hpers
            · omega
            · omega
          refine ⟨c0.nextId :: newIds', ?_, ?_, hwF, ?_, ?_, ?_, ?_⟩
          · rw [hacc, List.append_assoc]
            rfl
          · simp [hlen]
          · have hlist : (um0.childrenIds ++ [c0.nextId]) ++ newIds' =
                um0.childrenIds ++ (c0.nextId :: newIds') := by
              rw [List.append_assoc]
              rfl
            rw [humF]
            exact congrArg some (congrArg
              (fun L => Message.mk um0.id um0.role um0.content um0.parentId L
                um0.modelId um0.status um0.createdAt) hlist)
          · intro q2 hq2 hqlt
            have h1 := hpers q2 hq2 (by omega)
            rw [h1]
            exact appendChild_find?_old hmsgs (by omega)
              (fun hcontra => hq2 (Option.some.inj hcontra).symm)
          · rw [List.map_cons, List.map_cons, hmodel]
            congr 1
            rw [modelOf, hNpers, hnew]
            rfl
          · intro j2 hj2
            rcases List.mem_cons.1 hj2 with rfl | hj2'
            · rw [roleOf, hNpers, hnew]
              rfl
            · exact hrole j2 hj2'

end Conversation


/-- C1: for every sequence of `sendMessage`, `regenerate`, and
`editUserMessage(regenerate=true)` operations applied to a well-formed
conversation, the resulting message map is a forest: every non-root message's
id appears in exactly one parent's `childrenIds`, no id occurs twice in any
`childrenIds`, and `childrenIds` never references an id absent from
`messages`. -/
theorem C1_tree_integrity (c : Conversation) (ops : List Op)
    (hw : Conversation.WF c) (_hops : ∀ o ∈ ops, o.treeBuilding = true) :
    Conversation.Forest (c.applyOps ops) :=
  Conversation.Forest_of_WF (Conversation.WF_applyOps hw)

theorem C1_tree_integrity_witness :
    Conversation.Forest (Conversation.applyOps
      { messages := [], activeLeafIds := [], selectedModelIds := [5],
        nextId := 0 }
      [.send "What is a dog?", .regen 1, .editUser 0 "What is a cat?" true]) :=
  C1_tree_integrity _ _ (Conversation.WF_init [5]) (by decide)

/-- C9: every message with role user has a null `modelId` — only assistant
messages carry the identifier of the model backend that produced or is
producing them; the property is an invariant of every sequence of engine
operations. -/
theorem C9_user_modelId_null (c : Conversation) (ops : List Op)
    (hri : Conversation.RoleInv c) :
    Conversation.RoleInv (c.applyOps ops) :=
  Conversation.roleInv_applyOps hri

theorem C9_user_modelId_null_witness :
    Conversation.RoleInv (Conversation.applyOps
      { messages := [], activeLeafIds := [], selectedModelIds := [3, 7],
        nextId := 0 }
      [.send "List 5 facts about Canada.", .regen 2,
       .editAssistant 1 "A cat is a small mammal." true]) :=
  C9_user_modelId_null _ _ (Conversation.roleInv_init [3, 7])

/-- C5: within the life of one Generation Task, a message's status only moves
along pending → streaming → {complete, stopped, failed} (the Store's
`setStatus` admits exactly those moves), and the only re-entry is
stopped → streaming via the explicit continue command, which resumes on the
same message node — no node is created or removed — with the accumulated
content of every message preserved. -/
theorem C5_status_monotonic (c c' : Conversation) (i : Nat) (s : Status) :
    (c.setStatus i s = some c' →
      ∃ s0, c.statusOf i = some s0 ∧ c'.statusOf i = some s ∧
        ((s0 = .pending ∧ s = .streaming) ∨
         (s0 = .streaming ∧ (s = .complete ∨ s = .stopped ∨ s = .failed)))) ∧
    (c.continueResponse i = some c' →
      c.statusOf i = some .stopped ∧ c'.statusOf i = some .streaming ∧
      c'.ids = c.ids ∧ (∀ j, c'.contentOf j = c.contentOf j)) := by
  constructor
  · intro h
    rw [Conversation.setStatus] at h
    split at h
    · next m hm =>
        split at h
        · next hallow =>
            obtain rfl := Option.some.inj h.symm
            refine ⟨m.status, ?_, ?_, ?_⟩
            · rw [Conversation.statusOf, hm]
              rfl
            · rw [Conversation.statusOf,
                Conversation.mapMsg_find?_self
                  (Conversation.structPres_status).idPres, hm]
              rfl
            · revert hallow
              cases m.status <;> cases s <;>
                simp [Conversation.allowedTransition]
        · cases h
    · cases h
  · intro h
    rw [Conversation.continueResponse] at h
    split at h
    · next m hm =>
        split at h
        · next hstop =>
            obtain rfl := Option.some.inj h.symm
            have hstop' : m.status = .stopped := by simpa using hstop
            refine ⟨?_, ?_, ?_, ?_⟩
            · simp [Conversation.statusOf, hm, hstop']
            · rw [Conversation.statusOf,
                Conversation.mapMsg_find?_self
                  (Conversation.structPres_status).idPres, hm]
              rfl
            · exact Conversation.mapMsg_ids
                (Conversation.structPres_status).idPres
            · intro j
              by_cases hj : j = i
              · subst hj
                rw [Conversation.contentOf, Conversation.contentOf,
                  Conversation.mapMsg_find?_self
                    (Conversation.structPres_status).idPres, hm]
                rfl
              · rw [Conversation.contentOf, Conversation.contentOf,
                  Conversation.mapMsg_find?_other
                    (Conversation.structPres_status).idPres hj]
        · cases h
    · cases h

theorem C5_status_monotonic_witness :
    (∃ s0, Conversation.statusOf
        { messages := [{ id := 0, role := .assistant, content := "Hello",
                         parentId := none, childrenIds := [], modelId := some 3,
                         status := .pending, createdAt := 0 }],
          activeLeafIds := [0], selectedModelIds := [3], nextId := 1 } 0 = some s0 ∧
      Conversation.statusOf
        { messages := [{ id := 0, role := .assistant, content := "Hello",
                         parentId := none, childrenIds := [], modelId := some 3,
                         status := .streaming, createdAt := 0 }],
          activeLeafIds := [0], selectedModelIds := [3], nextId := 1 } 0 =
            some .streaming ∧
      ((s0 = .pending ∧ Status.streaming = .streaming) ∨
       (s0 = .streaming ∧ (Status.streaming = .complete ∨
          Status.streaming = .stopped ∨ Status.streaming = .failed)))) ∧
    (Conversation.statusOf
        { messages := [{ id := 0, role := .assistant, content := "Partial",
                         parentId := none, childrenIds := [], modelId := some 3,
                         status := .stopped, createdAt := 0 }],
          activeLeafIds := [0], selectedModelIds := [3], nextId := 1 } 0 =
            some .stopped ∧
      Conversation.statusOf
        { messages := [{ id := 0, role := .assistant, content := "Partial",
                         parentId := none, childrenIds := [], modelId := some 3,
                         status := .streaming, createdAt := 0 }],
          activeLeafIds := [0], selectedModelIds := [3], nextId := 1 } 0 =
            some .streaming ∧
      Conversation.ids
        { messages := [{ id := 0, role := .assistant, content := "Partial",
                         parentId := none, childrenIds := [], modelId := some 3,
                         status := .streaming, createdAt := 0 }],
          activeLeafIds := [0], selectedModelIds := [3], nextId := 1 } =
        Conversation.ids
          { messages := [{ id := 0, role := .assistant, content := "Partial",
                           parentId := none, childrenIds := [], modelId := some 3,
                           status := .stopped, createdAt := 0 }],
            activeLeafIds := [0], selectedModelIds := [3], nextId := 1 } ∧
      (∀ j, Conversation.contentOf
          { messages := [{ id := 0, role := .assistant, content := "Partial",
                           parentId := none, childrenIds := [], modelId := some 3,
                           status := .streaming, createdAt := 0 }],
            activeLeafIds := [0], selectedModelIds := [3], nextId := 1 } j =
        Conversation.contentOf
          { messages := [{ id := 0, role := .assistant, content := "Partial",
                           parentId := none, childrenIds := [], modelId := some 3,
                           status := .stopped, createdAt := 0 }],
            activeLeafIds := [0], selectedModelIds := [3], nextId := 1 } j)) :=
  ⟨(C5_status_monotonic _ _ 0 .streaming).1 (by decide),
   (C5_status_monotonic _ _ 0 .streaming).2 (by decide)⟩

/-- C6: `editUserMessage(id, newText, regenerate = false)` replaces the user
message's content in place and changes nothing else: every other message is
untouched, no message's status, children, or identity changes, no message is
added, and `activeLeafIds` / `selectedModelIds` / the id counter are
unchanged (no new generation is started). -/
theorem C6_edit_user_in_place (c : Conversation) (i : Nat) (m : Message)
    (t : String) (hm : c.find? i = some m) (hrole : m.role = .user) :
    ∃ c', c.editUserMessage i t false = some c' ∧
      c'.find? i = some { m with content := t } ∧
      (∀ j, j ≠ i → c'.find? j = c.find? j) ∧
      c'.ids = c.ids ∧
      (∀ j, c'.statusOf j = c.statusOf j) ∧
      (∀ j, c'.childrenOf j = c.childrenOf j) ∧
      c'.activeLeafIds = c.activeLeafIds ∧
      c'.selectedModelIds = c.selectedModelIds ∧
      c'.nextId = c.nextId := by
  have hrb : (m.role == Role.user) = true := by simp [hrole]
  have hcond : (m.status == Status.complete || m.role == Role.user) = true := by
    simp [hrole]
  refine ⟨c.mapMsg i (fun m' => { m' with content := t }), ?_, ?_, ?_, ?_, ?_,
    ?_, rfl, rfl, rfl⟩
  · rw [Conversation.editUserMessage, hm]
    dsimp only
    rw [if_pos hrb, if_neg (by decide : ¬(false = true))]
    rw [Conversation.replaceContent, hm]
    dsimp only
    rw [if_pos hcond]
  · rw [Conversation.mapMsg_find?_self
      (Conversation.structPres_content).idPres, hm]
    rfl
  · intro j hj
    exact Conversation.mapMsg_find?_other
      (Conversation.structPres_content).idPres hj
  · exact Conversation.mapMsg_ids (Conversation.structPres_content).idPres
  · intro j
    by_cases hj : j = i
    · subst hj
      rw [Conversation.statusOf, Conversation.statusOf,
        Conversation.mapMsg_find?_self
          (Conversation.structPres_content).idPres, hm]
      rfl
    · rw [Conversation.statusOf, Conversation.statusOf,
        Conversation.mapMsg_find?_other
          (Conversation.structPres_content).idPres hj]
  · intro j
    by_cases hj : j = i
    · subst hj
      rw [Conversation.childrenOf, Conversation.childrenOf,
        Conversation.mapMsg_find?_self
          (Conversation.structPres_content).idPres, hm]
      rfl
    · rw [Conversation.childrenOf, Conversation.childrenOf,
        Conversation.mapMsg_find?_other
          (Conversation.structPres_content).idPres hj]

theorem C6_edit_user_in_place_witness :
    ∃ c' : Conversation, Conversation.editUserMessage
      { messages :=
          [{ id := 0, role := .user, content := "What is a dog?",
             parentId := none, childrenIds := [1], modelId := none,
             status := .complete, createdAt := 0 },
           { id := 1, role := .assistant, content := "A dog is an animal.",
             parentId := some 0, childrenIds := [], modelId := some 3,
             status := .complete, createdAt := 1 }],
        activeLeafIds := [1], selectedModelIds := [3], nextId := 2 }
      0 "What is a cat?" false = some c' ∧
    c'.find? 0 = some
      { id := 0, role := .user, content := "What is a cat?",
        parentId := none, childrenIds := [1], modelId := none,
        status := .complete, createdAt := 0 } ∧
    (∀ j, j ≠ 0 → c'.find? j = Conversation.find?
      { messages :=
          [{ id := 0, role := .user, content := "What is a dog?",
             parentId := none, childrenIds := [1], modelId := none,
             status := .complete, createdAt := 0 },
           { id := 1, role := .assistant, content := "A dog is an animal.",
             parentId := some 0, childrenIds := [], modelId := some 3,
             status := .complete, createdAt := 1 }],
        activeLeafIds := [1], selectedModelIds := [3], nextId := 2 } j) ∧
    c'.ids = Conversation.ids
      { messages :=
          [{ id := 0, role := .user, content := "What is a dog?",
             parentId := none, childrenIds := [1], modelId := none,
             status := .complete, createdAt := 0 },
           { id := 1, role := .assistant, content := "A dog is an animal.",
             parentId := some 0, childrenIds := [], modelId := some 3,
             status := .complete, createdAt := 1 }],
        activeLeafIds := [1], selectedModelIds := [3], nextId := 2 } ∧
    (∀ j, c'.statusOf j = Conversation.statusOf
      { messages :=
          [{ id := 0, role := .user, content := "What is a dog?",
             parentId := none, childrenIds := [1], modelId := none,
             status := .complete, createdAt := 0 },
           { id := 1, role := .assistant, content := "A dog is an animal.",
             parentId := some 0, childrenIds := [], modelId := some 3,
             status := .complete, createdAt := 1 }],
        activeLeafIds := [1], selectedModelIds := [3], nextId := 2 } j) ∧
    (∀ j, c'.childrenOf j = Conversation.childrenOf
      { messages :=
          [{ id := 0, role := .user, content := "What is a dog?",
             parentId := none, childrenIds := [1], modelId := none,
             status := .complete, createdAt := 0 },
           { id := 1, role := .assistant, content := "A dog is an animal.",
             parentId := some 0, childrenIds := [], modelId := some 3,
             status := .complete, createdAt := 1 }],
        activeLeafIds := [1], selectedModelIds := [3], nextId := 2 } j) ∧
    c'.activeLeafIds = [1] ∧ c'.selectedModelIds = [3] ∧ c'.nextId = 2 :=
  C6_edit_user_in_place
    { messages :=
        [{ id := 0, role := .user, content := "What is a dog?",
           parentId := none, childrenIds := [1], modelId := none,
           status := .complete, createdAt := 0 },
         { id := 1, role := .assistant, content := "A dog is an animal.",
           parentId := some 0, childrenIds := [], modelId := some 3,
           status := .complete, createdAt := 1 }],
      activeLeafIds := [1], selectedModelIds := [3], nextId := 2 }
    0
    { id := 0, role := .user, content := "What is a dog?",
      parentId := none, childrenIds := [1], modelId := none,
      status := .complete, createdAt := 0 }
    "What is a cat?" (by decide) (by decide)

/-- C3 (counterexample to the unrestricted claim): in a conversation where
completed assistant message 1 has a later sibling 2 under parent 0,
`editAssistantMessage(1, "cat content", asCopy = true)` appends the copy
(id 3) at the end of the parent's `childrenIds`, so `previous` of the copy is
2 — not the edited message 1 — and `next` of 1 is 2, not the copy. -/
theorem C3_edit_as_copy_counterexample :
    (Conversation.statusOf
      { messages :=
          [{ id := 0, role := .user, content := "What is a dog?",
             parentId := none, childrenIds := [1, 2], modelId := none,
             status := .complete, createdAt := 0 },
           { id := 1, role := .assistant, content := "A dog is an animal.",
             parentId := some 0, childrenIds := [], modelId := some 3,
             status := .complete, createdAt := 1 },
           { id := 2, role := .assistant, content := "A dog is a pet.",
             parentId := some 0, childrenIds := [], modelId := some 3,
             status := .complete, createdAt := 2 }],
        activeLeafIds := [2], selectedModelIds := [3], nextId := 3 } 1 =
      some .complete) ∧
    (Conversation.editAssistantMessage
      { messages :=
          [{ id := 0, role := .user, content := "What is a dog?",
             parentId := none, childrenIds := [1, 2], modelId := none,
             status := .complete, createdAt := 0 },
           { id := 1, role := .assistant, content := "A dog is an animal.",
             parentId := some 0, childrenIds := [], modelId := some 3,
             status := .complete, createdAt := 1 },
           { id := 2, role := .assistant, content := "A dog is a pet.",
             parentId := some 0, childrenIds := [], modelId := some 3,
             status := .complete, createdAt := 2 }],
        activeLeafIds := [2], selectedModelIds := [3], nextId := 3 }
      1 "cat content" true).map
        (fun c2 => (c2.previous 3, c2.next 1)) = some (some 2, some 2) ∧
    some 2 ≠ some (1 : Nat) ∧ some 2 ≠ some (3 : Nat) := by
  refine ⟨by decide, by decide, by decide, by decide⟩

/-- C3 (amended): for a completed assistant message A that is the LAST
sibling under its parent, `editAssistantMessage(A, newText, asCopy = true)`
creates a sibling copy B under A's parent carrying `newText` with status
Complete and no Generation Task started (no other message's status changes
and `activeLeafIds` is untouched), such that `previous(B) = A` with A's
original content unchanged and `next(A) = B`. -/
theorem C3_edit_as_copy (c : Conversation) (aid p : Nat) (am pm : Message)
    (t : String) (hw : Conversation.WF c) (ham : c.find? aid = some am)
    (hrole : am.role = .assistant) (_hstatus : am.status = .complete)
    (hpar : am.parentId = some p) (hpm : c.find? p = some pm)
    (hlast : pm.childrenIds.getLast? = some aid) :
    ∃ c' : Conversation, c.editAssistantMessage aid t true = some c' ∧
      c'.contentOf c.nextId = some t ∧
      c'.statusOf c.nextId = some .complete ∧
      c'.roleOf c.nextId = some .assistant ∧
      (c'.find? c.nextId).map Message.parentId = some (some p) ∧
      c'.previous c.nextId = some aid ∧
      c'.next aid = some c.nextId ∧
      c'.contentOf aid = some am.content ∧
      (∀ q, q ≠ c.nextId → c'.statusOf q = c.statusOf q) ∧
      c'.activeLeafIds = c.activeLeafIds := by
  have haid_lt : aid < c.nextId := by
    have := hw.1 am (Conversation.mem_of_find? ham)
    rwa [Conversation.id_of_find? ham] at this
  have hpsome : (c.find? p).isSome := by rw [hpm]; rfl
  have happ : c.appendChild (some p) .assistant t am.modelId .complete =
      some ({ c with
                messages := c.bumpAll (some p) ++
                  [c.newMsg (some p) .assistant t am.modelId .complete]
                nextId := c.nextId + 1 }, c.nextId) :=
    Conversation.appendChild_isSome_of_parent hpsome
  have hedit : c.editAssistantMessage aid t true =
      some { c with
               messages := c.bumpAll (some p) ++
                 [c.newMsg (some p) .assistant t am.modelId .complete]
               nextId := c.nextId + 1 } := by
    rw [Conversation.editAssistantMessage, ham]
    dsimp only
    rw [if_pos (show (am.role == Role.assistant) = true by simp [hrole])]
    rw [if_pos (show (true = true) from rfl)]
    rw [hpar, happ]
    rfl
  have hmsgs2 : ({ c with
      messages := c.bumpAll (some p) ++
        [c.newMsg (some p) .assistant t am.modelId .complete]
      nextId := c.nextId + 1 } : Conversation).messages =
      c.bumpAll (some p) ++
        [c.newMsg (some p) .assistant t am.modelId .complete] := rfl
  obtain ⟨h1, h2, h3, h4, h5, h6, h7, h8⟩ :=
    Conversation.editCopy_spec hw ham hpar hpm hlast hmsgs2
  exact ⟨_, hedit, h1, h2, h3, h4, h5, h6, h7, h8, rfl⟩

theorem C3_edit_as_copy_witness :
    ∃ c' : Conversation, Conversation.editAssistantMessage
      { messages :=
          [{ id := 0, role := .user, content := "What is a dog?",
             parentId := none, childrenIds := [1], modelId := none,
             status := .complete, createdAt := 0 },
           { id := 1, role := .assistant, content := "A dog is an animal.",
             parentId := some 0, childrenIds := [], modelId := some 3,
             status := .complete, createdAt := 1 }],
        activeLeafIds := [1], selectedModelIds := [3], nextId := 2 }
      1 "A cat is a small domesticated carnivorous mammal." true = some c' ∧
      c'.contentOf 2 =
        some "A cat is a small domesticated carnivorous mammal." ∧
      c'.statusOf 2 = some .complete ∧
      c'.roleOf 2 = some .assistant ∧
      (c'.find? 2).map Message.parentId = some (some 0) ∧
      c'.previous 2 = some 1 ∧
      c'.next 1 = some 2 ∧
      c'.contentOf 1 = some "A dog is an animal." ∧
      (∀ q, q ≠ 2 → c'.statusOf q = Conversation.statusOf
        { messages :=
            [{ id := 0, role := .user, content := "What is a dog?",
               parentId := none, childrenIds := [1], modelId := none,
               status := .complete, createdAt := 0 },
             { id := 1, role := .assistant, content := "A dog is an animal.",
               parentId := some 0, childrenIds := [], modelId := some 3,
               status := .complete, createdAt := 1 }],
          activeLeafIds := [1], selectedModelIds := [3], nextId := 2 } q) ∧
      c'.activeLeafIds = [1] :=
  C3_edit_as_copy _ 1 0
    { id := 1, role := .assistant, content := "A dog is an animal.",
      parentId := some 0, childrenIds := [], modelId := some 3,
      status := .complete, createdAt := 1 }
    { id := 0, role := .user, content := "What is a dog?",
      parentId := none, childrenIds := [1], modelId := none,
      status := .complete, createdAt := 0 }
    "A cat is a small domesticated carnivorous mammal."
    (Conversation.WF_of_wfCheck (by decide)) (by decide) (by decide)
    (by decide) (by decide) (by decide) (by decide)

/-- C8: version-navigation round-trip — for a node whose sibling list has k
entries, starting from the first sibling, calling `next` k−1 times and then
`previous` k−1 times returns to the original message id. -/
theorem C8_version_roundtrip (c : Conversation) (i : Nat) (l : List Nat)
    (hw : Conversation.WF c) (hsib : c.siblingsOf i = l)
    (hhead : l.head? = some i) :
    (Conversation.iterNav (c.next) (l.length - 1) i).bind
      (Conversation.iterNav (c.previous) (l.length - 1)) = some i := by
  have hstable : ∀ j2 ∈ l, c.siblingsOf j2 = l :=
    fun j2 hj2 => Conversation.siblings_stable hw hsib hj2
  have hnodup : l.Nodup := Conversation.siblings_nodup hw hsib
  obtain ⟨tl, rfl⟩ := List.head?_eq_some_iff.1 hhead
  have hlen : (i :: tl).length - 1 = tl.length := by simp
  have h0lt : 0 + tl.length < (i :: tl).length := by simp
  have hnext := Conversation.iterNav_next hstable hnodup tl.length 0 h0lt
  have hprev := Conversation.iterNav_previous hstable hnodup tl.length 0 h0lt
  have h0 : (i :: tl).get ⟨0, by simp⟩ = i := rfl
  rw [hlen]
  rw [show ((i :: tl).get ⟨0, by simp⟩ : Nat) = i from rfl] at hnext
  rw [hnext, Option.some_bind]
  rw [hprev]
  rfl

theorem C8_version_roundtrip_witness :
    (Conversation.iterNav
      (Conversation.next
        { messages :=
            [{ id := 0, role := .user, content := "What is a dog?",
               parentId := none, childrenIds := [1, 2, 3], modelId := none,
               status := .complete, createdAt := 0 },
             { id := 1, role := .assistant, content := "Answer one",
               parentId := some 0, childrenIds := [], modelId := some 3,
               status := .complete, createdAt := 1 },
             { id := 2, role := .assistant, content := "Answer two",
               parentId := some 0, childrenIds := [], modelId := some 3,
               status := .complete, createdAt := 2 },
             { id := 3, role := .assistant, content := "Answer three",
               parentId := some 0, childrenIds := [], modelId := some 3,
               status := .complete, createdAt := 3 }],
          activeLeafIds := [3], selectedModelIds := [3], nextId := 4 })
      ([1, 2, 3].length - 1) 1).bind
      (Conversation.iterNav
        (Conversation.previous
          { messages :=
              [{ id := 0, role := .user, content := "What is a dog?",
                 parentId := none, childrenIds := [1, 2, 3], modelId := none,
                 status := .complete, createdAt := 0 },
               { id := 1, role := .assistant, content := "Answer one",
                 parentId := some 0, childrenIds := [], modelId := some 3,
                 status := .complete, createdAt := 1 },
               { id := 2, role := .assistant, content := "Answer two",
                 parentId := some 0, childrenIds := [], modelId := some 3,
                 status := .complete, createdAt := 2 },
               { id := 3, role := .assistant, content := "Answer three",
                 parentId := some 0, childrenIds := [], modelId := some 3,
                 status := .complete, createdAt := 3 }],
            activeLeafIds := [3], selectedModelIds := [3], nextId := 4 })
        ([1, 2, 3].length - 1)) = some 1 :=
  C8_version_roundtrip _ 1 [1, 2, 3]
    (Conversation.WF_of_wfCheck (by decide)) (by decide) (by decide)

/-- C7: `addModel` during a turn appends exactly one more assistant child
(carrying the added model id) under the turn's user message without touching
any other message — the assistant-child count rises by exactly one — and
`removeModel` cancels that model's task (a streaming node becomes `Stopped`)
without deleting any message node: the id set, every `childrenIds`, and every
content are unchanged, only the removed model's node can change status, and
its id leaves `activeLeafIds`. -/
theorem C7_add_remove_model (c : Conversation) (uid mid : Nat) (um : Message)
    (hw : Conversation.WF c) (hum : c.find? uid = some um) :
    (∃ c' : Conversation, c.addModel uid mid = some c' ∧
      c'.childrenOf uid = some (um.childrenIds ++ [c.nextId]) ∧
      c'.modelOf c.nextId = some (some mid) ∧
      c'.roleOf c.nextId = some .assistant ∧
      c'.assistantChildCount uid = c.assistantChildCount uid + 1 ∧
      (∀ q, q ≠ uid → q ≠ c.nextId → c'.find? q = c.find? q)) ∧
    (∀ j0, um.childrenIds.find? (fun j2 =>
        (c.find? j2).any (fun mc => mc.modelId == some mid)) = some j0 →
      ∃ c2 : Conversation, c.removeModel uid mid = some c2 ∧
        c2.ids = c.ids ∧
        (∀ q, c2.childrenOf q = c.childrenOf q) ∧
        (∀ q, c2.contentOf q = c.contentOf q) ∧
        (c.statusOf j0 = some .streaming → c2.statusOf j0 = some .stopped) ∧
        (∀ q, q ≠ j0 → c2.statusOf q = c.statusOf q) ∧
        j0 ∉ c2.activeLeafIds) := by
  constructor
  · have happ : c.appendChild (some uid) Role.assistant "" (some mid)
        Status.pending =
        some ({ c with
                  messages := c.bumpAll (some uid) ++
                    [c.newMsg (some uid) Role.assistant "" (some mid)
                      Status.pending]
                  nextId := c.nextId + 1 }, c.nextId) :=
      Conversation.appendChild_isSome_of_parent (by rw [hum]; rfl)
    have haddeq : c.addModel uid mid = some
        { c with
            messages := c.bumpAll (some uid) ++
              [c.newMsg (some uid) Role.assistant "" (some mid) Status.pending]
            activeLeafIds := c.activeLeafIds ++ [c.nextId]
            nextId := c.nextId + 1 } := by
      rw [Conversation.addModel, happ]
      rfl
    refine ⟨_, haddeq, ?_, ?_, ?_, ?_, ?_⟩
    · rw [Conversation.childrenOf,
        Conversation.appendChild_find?_parent rfl hum]
      rfl
    · rw [Conversation.modelOf, Conversation.appendChild_find?_new hw.1 rfl]
      rfl
    · rw [Conversation.roleOf, Conversation.appendChild_find?_new hw.1 rfl]
      rfl
    · exact Conversation.afterAppend_count hw hum rfl rfl
    · intro q hq1 hq2
      exact Conversation.appendChild_find?_old rfl hq2
        (fun hcontra => hq1 (Option.some.inj hcontra).symm)
  · intro j0 hfind
    have hrm : c.removeModel uid mid = some
        { c.cancel j0 with activeLeafIds :=
            (c.cancel j0).activeLeafIds.filter (fun x => x != j0) } := by
      rw [Conversation.removeModel, hum]
      dsimp only
      rw [hfind]
    obtain ⟨hids, hchs, hconts, hstat, hstop⟩ := Conversation.cancel_spec c j0
    refine ⟨_, hrm, hids, hchs, hconts, hstop, hstat, ?_⟩
    simp [List.mem_filter]

theorem C7_add_remove_model_witness :
    (∃ c' : Conversation, Conversation.addModel
        { messages :=
            [{ id := 0, role := .user, content := "List 20 breeds of dogs.",
               parentId := none, childrenIds := [1], modelId := none,
               status := .complete, createdAt := 0 },
             { id := 1, role := .assistant, content := "1. Labrador",
               parentId := some 0, childrenIds := [], modelId := some 3,
               status := .streaming, createdAt := 1 }],
          activeLeafIds := [1], selectedModelIds := [3], nextId := 2 }
        0 3 = some c' ∧
      c'.childrenOf 0 = some ([1] ++ [2]) ∧
      c'.modelOf 2 = some (some 3) ∧
      c'.roleOf 2 = some .assistant ∧
      c'.assistantChildCount 0 = Conversation.assistantChildCount
        { messages :=
            [{ id := 0, role := .user, content := "List 20 breeds of dogs.",
               parentId := none, childrenIds := [1], modelId := none,
               status := .complete, createdAt := 0 },
             { id := 1, role := .assistant, content := "1. Labrador",
               parentId := some 0, childrenIds := [], modelId := some 3,
               status := .streaming, createdAt := 1 }],
          activeLeafIds := [1], selectedModelIds := [3], nextId := 2 } 0 + 1 ∧
      (∀ q, q ≠ 0 → q ≠ 2 → c'.find? q = Conversation.find?
        { messages :=
            [{ id := 0, role := .user, content := "List 20 breeds of dogs.",
               parentId := none, childrenIds := [1], modelId := none,
               status := .complete, createdAt := 0 },
             { id := 1, role := .assistant, content := "1. Labrador",
               parentId := some 0, childrenIds := [], modelId := some 3,
               status := .streaming, createdAt := 1 }],
          activeLeafIds := [1], selectedModelIds := [3], nextId := 2 } q)) ∧
    (∃ c2 : Conversation, Conversation.removeModel
        { messages :=
            [{ id := 0, role := .user, content := "List 20 breeds of dogs.",
               parentId := none, childrenIds := [1], modelId := none,
               status := .complete, createdAt := 0 },
             { id := 1, role := .assistant, content := "1. Labrador",
               parentId := some 0, childrenIds := [], modelId := some 3,
               status := .streaming, createdAt := 1 }],
          activeLeafIds := [1], selectedModelIds := [3], nextId := 2 }
        0 3 = some c2 ∧
      c2.ids = Conversation.ids
        { messages :=
            [{ id := 0, role := .user, content := "List 20 breeds of dogs.",
               parentId := none, childrenIds := [1], modelId := none,
               status := .complete, createdAt := 0 },
             { id := 1, role := .assistant, content := "1. Labrador",
               parentId := some 0, childrenIds := [], modelId := some 3,
               status := .streaming, createdAt := 1 }],
          activeLeafIds := [1], selectedModelIds := [3], nextId := 2 } ∧
      (∀ q, c2.childrenOf q = Conversation.childrenOf
        { messages :=
            [{ id := 0, role := .user, content := "List 20 breeds of dogs.",
               parentId := none, childrenIds := [1], modelId := none,
               status := .complete, createdAt := 0 },
             { id := 1, role := .assistant, content := "1. Labrador",
               parentId := some 0, childrenIds := [], modelId := some 3,
               status := .streaming, createdAt := 1 }],
          activeLeafIds := [1], selectedModelIds := [3], nextId := 2 } q) ∧
      (∀ q, c2.contentOf q = Conversation.contentOf
        { messages :=
            [{ id := 0, role := .user, content := "List 20 breeds of dogs.",
               parentId := none, childrenIds := [1], modelId := none,
               status := .complete, createdAt := 0 },
             { id := 1, role := .assistant, content := "1. Labrador",
               parentId := some 0, childrenIds := [], modelId := some 3,
               status := .streaming, createdAt := 1 }],
          activeLeafIds := [1], selectedModelIds := [3], nextId := 2 } q) ∧
      (Conversation.statusOf
        { messages :=
            [{ id := 0, role := .user, content := "List 20 breeds of dogs.",
               parentId := none, childrenIds := [1], modelId := none,
               status := .complete, createdAt := 0 },
             { id := 1, role := .assistant, content := "1. Labrador",
               parentId := some 0, childrenIds := [], modelId := some 3,
               status := .streaming, createdAt := 1 }],
          activeLeafIds := [1], selectedModelIds := [3], nextId := 2 } 1 =
            some .streaming → c2.statusOf 1 = some .stopped) ∧
      (∀ q, q ≠ 1 → c2.statusOf q = Conversation.statusOf
        { messages :=
            [{ id := 0, role := .user, content := "List 20 breeds of dogs.",
               parentId := none, childrenIds := [1], modelId := none,
               status := .complete, createdAt := 0 },
             { id := 1, role := .assistant, content := "1. Labrador",
               parentId := some 0, childrenIds := [], modelId := some 3,
               status := .streaming, createdAt := 1 }],
          activeLeafIds := [1], selectedModelIds := [3], nextId := 2 } q) ∧
      (1 : Nat) ∉ c2.activeLeafIds) :=
  ⟨(C7_add_remove_model _ 0 3
      { id := 0, role := .user, content := "List 20 breeds of dogs.",
        parentId := none, childrenIds := [1], modelId := none,
        status := .complete, createdAt := 0 }
      (Conversation.WF_of_wfCheck (by decide)) (by decide)).1,
   (C7_add_remove_model _ 0 3
      { id := 0, role := .user, content := "List 20 breeds of dogs.",
        parentId := none, childrenIds := [1], modelId := none,
        status := .complete, createdAt := 0 }
      (Conversation.WF_of_wfCheck (by decide)) (by decide)).2 1 (by decide)⟩

/-- C4: `continueResponse` on a `Stopped` message resumes the same node in
streaming mode; once the resumed stream delivers output (a chunk list with
nonempty concatenation) and ends, the node's content is the prior content
followed by the delivered output — the prior content is a prefix, nothing is
reset — and the content length strictly increased. -/
theorem C4_continue_monotonic (c : Conversation) (i : Nat) (m : Message)
    (chunks : List String) (hm : c.find? i = some m)
    (hstop : m.status = .stopped) (hne : concatChunks chunks ≠ "") :
    ∃ c1 : Conversation, c.continueResponse i = some c1 ∧
      (((chunks.map (StreamEv.chunk i)).foldl Conversation.applyStream c1
         ).applyStream (.finish i)).contentOf i =
        some (m.content ++ concatChunks chunks) ∧
      (((chunks.map (StreamEv.chunk i)).foldl Conversation.applyStream c1
         ).applyStream (.finish i)).statusOf i = some .complete ∧
      (m.content ++ concatChunks chunks).length > m.content.length := by
  have hcont : c.continueResponse i =
      some (c.mapMsg i (fun m' => { m' with status := .streaming })) := by
    rw [Conversation.continueResponse, hm]
    dsimp only
    rw [if_pos (by simp [hstop] : (m.status == Status.stopped) = true)]
  refine ⟨_, hcont, ?_, ?_, ?_⟩
  · have hm1 : (c.mapMsg i
        (fun m' => { m' with status := .streaming })).find? i =
        some { m with status := .streaming } := by
      rw [Conversation.mapMsg_find?_self
        (Conversation.structPres_status).idPres, hm]
      rfl
    have hdel := Conversation.deliver_chunks chunks _ _ hm1 rfl
    have hfin : (((chunks.map (StreamEv.chunk i)).foldl
        Conversation.applyStream
        (c.mapMsg i (fun m' => { m' with status := .streaming }))
        ).applyStream (.finish i)) =
        ((chunks.map (StreamEv.chunk i)).foldl Conversation.applyStream
          (c.mapMsg i (fun m' => { m' with status := .streaming }))).mapMsg i
          (fun m' => { m' with status := .complete }) := by
      show (Conversation.setStatus _ i .complete).getD _ = _
      rw [Conversation.setStatus, hdel]
      rfl
    rw [Conversation.contentOf, hfin,
      Conversation.mapMsg_find?_self (Conversation.structPres_status).idPres,
      hdel]
    rfl
  · have hm1 : (c.mapMsg i
        (fun m' => { m' with status := .streaming })).find? i =
        some { m with status := .streaming } := by
      rw [Conversation.mapMsg_find?_self
        (Conversation.structPres_status).idPres, hm]
      rfl
    have hdel := Conversation.deliver_chunks chunks _ _ hm1 rfl
    have hfin : (((chunks.map (StreamEv.chunk i)).foldl
        Conversation.applyStream
        (c.mapMsg i (fun m' => { m' with status := .streaming }))
        ).applyStream (.finish i)) =
        ((chunks.map (StreamEv.chunk i)).foldl Conversation.applyStream
          (c.mapMsg i (fun m' => { m' with status := .streaming }))).mapMsg i
          (fun m' => { m' with status := .complete }) := by
      show (Conversation.setStatus _ i .complete).getD _ = _
      rw [Conversation.setStatus, hdel]
      rfl
    rw [Conversation.statusOf, hfin,
      Conversation.mapMsg_find?_self (Conversation.structPres_status).idPres,
      hdel]
    rfl
  · have := Conversation.strLength_pos hne
    rw [String.length_append]
    omega

/-- C2: `startTurn(userMessageId, modelIds)` with N selected model ids
creates exactly N assistant children under that user message — appended to
its `childrenIds` in model-selection order, each carrying its model id — and
this child list, order, and model assignment are unchanged by any subsequent
interleaving of stream events, so sibling order is independent of which
model's stream finishes first. -/
theorem C2_fanout_order (c : Conversation) (uid : Nat) (um : Message)
    (mids : List Nat) (hw : Conversation.WF c)
    (hum : c.find? uid = some um) :
    ∃ newIds : List Nat,
      newIds.length = mids.length ∧
      (c.startTurn uid mids).activeLeafIds = newIds ∧
      ∀ evs : List StreamEv,
        (evs.foldl Conversation.applyStream
          (c.startTurn uid mids)).childrenOf uid =
            some (um.childrenIds ++ newIds) ∧
        newIds.map (fun j => (evs.foldl Conversation.applyStream
          (c.startTurn uid mids)).modelOf j) =
            mids.map (fun mid => some (some mid)) ∧
        ∀ j ∈ newIds, (evs.foldl Conversation.applyStream
          (c.startTurn uid mids)).roleOf j = some .assistant := by
  obtain ⟨newIds, hacc, hlen, hwF, humF, hpers, hmodel, hrole⟩ :=
    Conversation.startTurn_fold mids c [] um hw hum
  refine ⟨newIds, hlen, ?_, ?_⟩
  · show (mids.foldl (Conversation.turnStep uid) (c, [])).2 = newIds
    rw [hacc]
    rfl
  · intro evs
    refine ⟨?_, ?_, ?_⟩
    · rw [Conversation.foldStream_childrenOf]
      show (mids.foldl (Conversation.turnStep uid) (c, [])).1.childrenOf uid = _
      rw [Conversation.childrenOf, humF]
      rfl
    · have h1 : newIds.map (fun j => (evs.foldl Conversation.applyStream
          (c.startTurn uid mids)).modelOf j) =
          newIds.map (fun j => (c.startTurn uid mids).modelOf j) :=
        List.map_congr_left (fun j _ => Conversation.foldStream_modelOf)
      rw [h1]
      show newIds.map
        (fun j => (mids.foldl (Conversation.turnStep uid) (c, [])).1.modelOf j)
          = _
      exact hmodel
    · intro j hj
      rw [Conversation.foldStream_roleOf]
      show (mids.foldl (Conversation.turnStep uid) (c, [])).1.roleOf j = _
      exact hrole j hj

theorem C2_fanout_order_witness :
    ∃ newIds : List Nat,
      newIds.length = [3, 7].length ∧
      (Conversation.startTurn
        { messages := [{ id := 0, role := .user,
                         content := "List 5 facts about Canada.",
                         parentId := none, childrenIds := [], modelId := none,
                         status := .complete, createdAt := 0 }],
          activeLeafIds := [0], selectedModelIds := [3, 7], nextId := 1 }
        0 [3, 7]).activeLeafIds = newIds ∧
      ∀ evs : List StreamEv,
        (evs.foldl Conversation.applyStream (Conversation.startTurn
          { messages := [{ id := 0, role := .user,
                           content := "List 5 facts about Canada.",
                           parentId := none, childrenIds := [], modelId := none,
                           status := .complete, createdAt := 0 }],
            activeLeafIds := [0], selectedModelIds := [3, 7], nextId := 1 }
          0 [3, 7])).childrenOf 0 = some ([] ++ newIds) ∧
        newIds.map (fun j => (evs.foldl Conversation.applyStream
          (Conversation.startTurn
            { messages := [{ id := 0, role := .user,
                             content := "List 5 facts about Canada.",
                             parentId := none, childrenIds := [],
                             modelId := none, status := .complete,
                             createdAt := 0 }],
              activeLeafIds := [0], selectedModelIds := [3, 7], nextId := 1 }
            0 [3, 7])).modelOf j) =
          [3, 7].map (fun mid => some (some mid)) ∧
        ∀ j ∈ newIds, (evs.foldl Conversation.applyStream
          (Conversation.startTurn
            { messages := [{ id := 0, role := .user,
                             content := "List 5 facts about Canada.",
                             parentId := none, childrenIds := [],
                             modelId := none, status := .complete,
                             createdAt := 0 }],
              activeLeafIds := [0], selectedModelIds := [3, 7], nextId := 1 }
            0 [3, 7])).roleOf j = some .assistant :=
  C2_fanout_order
    { messages := [{ id := 0, role := .user,
                     content := "List 5 facts about Canada.",
                     parentId := none, childrenIds := [], modelId := none,
                     status := .complete, createdAt := 0 }],
      activeLeafIds := [0], selectedModelIds := [3, 7], nextId := 1 }
    0
    { id := 0, role := .user, content := "List 5 facts about Canada.",
      parentId := none, childrenIds := [], modelId := none,
      status := .complete, createdAt := 0 }
    [3, 7] (Conversation.WF_of_wfCheck (by decide)) (by decide)

/-- C10 (divergence evidence): the engine modelled from the spec rejects
`continueResponse` on a message whose status is Complete — §4.5 requires
`status == Stopped` — returning the `InvalidState` failure (`none`) and
leaving the state unchanged, whereas the repository's own test TC013 invokes
Continue Response a second time on an already-completed answer and asserts
that its content keeps growing. -/
theorem C10_continue_on_complete_rejected :
    Conversation.statusOf
      { messages := [{ id := 0, role := .assistant,
                       content := "The internet began with ARPANET.",
                       parentId := none, childrenIds := [], modelId := some 3,
                       status := .complete, createdAt := 0 }],
        activeLeafIds := [0], selectedModelIds := [3], nextId := 1 } 0 =
      some .complete ∧
    Conversation.continueResponse
      { messages := [{ id := 0, role := .assistant,
                       content := "The internet began with ARPANET.",
                       parentId := none, childrenIds := [], modelId := some 3,
                       status := .complete, createdAt := 0 }],
        activeLeafIds := [0], selectedModelIds := [3], nextId := 1 } 0 =
      none := by
  refine ⟨by decide, by decide⟩

theorem C4_continue_monotonic_witness :
    ∃ c1 : Conversation, Conversation.continueResponse
      { messages := [{ id := 0, role := .assistant,
                       content := "The history of the internet",
                       parentId := none, childrenIds := [], modelId := some 3,
                       status := .stopped, createdAt := 0 }],
        activeLeafIds := [0], selectedModelIds := [3], nextId := 1 } 0 =
        some c1 ∧
      ((([" began", " with ARPANET."].map (StreamEv.chunk 0)).foldl
          Conversation.applyStream c1).applyStream (.finish 0)).contentOf 0 =
        some ("The history of the internet" ++
          concatChunks [" began", " with ARPANET."]) ∧
      ((([" began", " with ARPANET."].map (StreamEv.chunk 0)).foldl
          Conversation.applyStream c1).applyStream (.finish 0)).statusOf 0 =
        some .complete ∧
      ("The history of the internet" ++
        concatChunks [" began", " with ARPANET."]).length >
        ("The history of the internet" : String).length :=
  C4_continue_monotonic _ 0
    { id := 0, role := .assistant, content := "The history of the internet",
      parentId := none, childrenIds := [], modelId := some 3,
      status := .stopped, createdAt := 0 }
    [" began", " with ARPANET."] (by decide) (by decide) (by decide)

end Canchat
